import Mathlib

set_option linter.unusedVariables false

/-!
A shallow embedding, in Lean 4, of the load-balancing core, the readiness
engines and the outbound TCP connector of the proxy repository, together with
proofs of the behavioural claims made by its specification.

The C sources embedded here are:
 * `src/src/lb_fwlc.c`   — fast weighted least-connections balancing,
 * `src/src/lb_fwrr.c`   — fast weighted round-robin balancing,
 * `src/src/ev_sepoll.c` — the speculative epoll readiness engine,
 * `src/src/ev_kqueue.c` — the kqueue readiness engine,
 * `src/src/proto_tcp.c` — the outbound connector `tcp_connect_server`.

The intrusive `eb32` ordered trees used by the load balancers are embedded as
lists kept in ascending key order; a duplicate key is inserted after the
existing equal keys, matching the eb-tree convention that equal keys are
visited in insertion order.  An intrusive tree node that lives inside a
`struct server` becomes a copy of the server record held by the list; every
mutation of a server record is applied simultaneously to the backing server
list and to any tree copy so that the two views never diverge, which mirrors
the single shared C record.

C `int` counters that are only ever non-negative in the embedded code paths
(weights, connection counts, tree keys, scheduling positions) are modelled as
`Nat`; the backend-level aggregates `tot_wact`, `tot_wbck`, `srv_act` and
`srv_bck`, which the code updates by signed additions and subtractions, are
modelled as `Int`.
-/

/-! ## Constants (types/backend.h and types/server.h) -/

/-- From `src/include/types/backend.h`: ratio between user weight and
effective weight. -/
def BE_WEIGHT_SCALE : Nat := 16

/-- Modelled from the spec: the user-weight range constant of the
repository's `types/server.h` (a header absent from `src/`); user weights
occupy one byte, and the effective-weight bound is the scaled top user
weight. -/
def SRV_UWGHT_RANGE : Nat := 256

/-- Modelled from the spec: largest user weight (see `SRV_UWGHT_RANGE`). -/
def SRV_UWGHT_MAX : Nat := SRV_UWGHT_RANGE - 1

/-- Modelled from the spec: largest effective weight, the scaled largest user
weight (`weight-scale-max` in the spec's keying rules). -/
def SRV_EWGHT_MAX : Nat := SRV_UWGHT_MAX * BE_WEIGHT_SCALE

/-! ## Server model -/

/-- The server state bitfield, restricted to the flags the embedded code
reads: `SRV_RUNNING`, `SRV_GOINGDOWN`, `SRV_MAINTAIN` (spec: enabled,
checked-up, maintenance) and `SRV_BACKUP`. -/
structure SrvState where
  running : Bool
  goingdown : Bool
  maintain : Bool
  backup : Bool
deriving DecidableEq, Repr

/-- Which ordered tree a server's intrusive `lb_node` currently sits in
(`s->lb_tree`).  `fwlcAct`/`fwlcBck` are the two FWLC roots; `grpCurr`,
`grpT0` and `grpT1` are the three roots of the server's FWRR group (the
group itself is determined by the server's backup flag, and the group's
`init`/`next` pointers alias `t0`/`t1`). -/
inductive TreeRef where
  | fwlcAct
  | fwlcBck
  | grpCurr
  | grpT0
  | grpT1
deriving DecidableEq, Repr

/-- A `struct server`, restricted to the fields the embedded code reads and
writes.  `lb_node_key` is the 32-bit key of the intrusive `lb_node`;
`dyn_maxconn` is the value returned by `srv_dynamic_maxconn`, kept as an
abstract per-server quantity (see `srv_dynamic_maxconn`). -/
structure Srv where
  id : Nat
  state : SrvState
  prev_state : SrvState
  eweight : Nat
  prev_eweight : Nat
  uweight : Nat
  served : Nat
  nbpend : Nat
  maxconn : Nat
  dyn_maxconn : Nat
  lb_tree : Option TreeRef
  lb_node_key : Nat
  lpos : Nat
  npos : Nat
  rweight : Nat
deriving DecidableEq, Repr

/-- Modelled from the spec: `srv_is_usable(state, weight)` of the
repository's `proto/backend.h` (absent from `src/`): a server is usable when
its effective weight is non-zero and its state is checked-up and neither
going down nor in maintenance. -/
def srv_is_usable (state : SrvState) (weight : Nat) : Bool :=
  weight ≠ 0 && state.running && !state.goingdown && !state.maintain

/-- Modelled from the spec: `srv_dynamic_maxconn` of the repository's
`proto/backend.h` (absent from `src/`), the slow-start-adjusted dynamic
connection limit; it is kept abstract as the per-server value
`dyn_maxconn`. -/
def srv_dynamic_maxconn (s : Srv) : Nat := s.dyn_maxconn

/-- The saturation test shared by `fwlc_get_next_server` and
`fwrr_get_next_server`:
`!s->maxconn || (!s->nbpend && s->served < srv_dynamic_maxconn(s))`.
`true` means the server may receive a connection now. -/
def srv_has_slot (s : Srv) : Bool :=
  s.maxconn == 0 || (s.nbpend == 0 && s.served < srv_dynamic_maxconn s)

/-! ## eb32 ordered trees as sorted lists -/

/-- `eb32_insert`: insert a server (carrying its `lb_node_key`) into a tree
held as a list in ascending key order; an equal key goes after the existing
ones, matching eb-tree insertion order for duplicates. -/
def eb32_insert (x : Srv) : List Srv → List Srv
  | [] => [x]
  | s :: t => if x.lb_node_key < s.lb_node_key then x :: s :: t else s :: eb32_insert x t

/-- `eb32_delete` on an intrusive node: remove the (unique) node of server
`sid` from a tree list, wherever it is. -/
def eb32_delete (sid : Nat) (l : List Srv) : List Srv :=
  l.eraseP (fun s => s.id == sid)

/-- A tree list is in ascending key order. -/
def treeSorted (l : List Srv) : Prop :=
  l.Pairwise (fun a b => a.lb_node_key ≤ b.lb_node_key)

/-- Replace, in a list of servers, the record of server `sid` by `f` of it.
This is how a C write through the shared `struct server *` is reflected into
every list that holds the record. -/
def updSrvList (sid : Nat) (f : Srv → Srv) (l : List Srv) : List Srv :=
  l.map (fun s => if s.id = sid then f s else s)

/-! ## FWLC backend state (proxy + lbprm.fwlc) -/

/-- The part of `struct proxy` and its `lbprm` that `lb_fwlc.c` uses:
the config-order server list `p->srv`, the two FWLC roots, the aggregate
weights and counts, and the first-backup pointer (stored as a server id).
The derived `tot_weight`/`tot_used` fields, refreshed by
`update_backend_weight`, are not carried because no embedded function reads
them. -/
structure FwlcBackend where
  servers : List Srv
  act : List Srv
  bck : List Srv
  tot_wact : Int
  tot_wbck : Int
  srv_act : Int
  srv_bck : Int
  fbck : Option Nat
deriving DecidableEq, Repr

namespace FwlcBackend

/-- Dereference a server id in the backend's server list. -/
def findSrv (p : FwlcBackend) (sid : Nat) : Option Srv :=
  p.servers.find? (fun s => s.id == sid)

/-- Apply a field update of server `sid` to the server list and to any tree
copy of the record (the C record is shared by all views). -/
def updSrv (p : FwlcBackend) (sid : Nat) (f : Srv → Srv) : FwlcBackend :=
  { p with
    servers := updSrvList sid f p.servers
    act := updSrvList sid f p.act
    bck := updSrvList sid f p.bck }

end FwlcBackend

/-- Modelled from the spec: `update_backend_weight` of the repository's
`backend.c` (absent from `src/`) recomputes the derived `tot_weight` and
`tot_used` aggregates; those fields are not carried by this model, so the
call is the identity on the modelled state. -/
def update_backend_weight (p : FwlcBackend) : FwlcBackend := p

/-- `fwlc_remove_from_tree`: `s->lb_tree = NULL`. -/
def fwlc_remove_from_tree (p : FwlcBackend) (sid : Nat) : FwlcBackend :=
  p.updSrv sid (fun s => { s with lb_tree := none })

/-- `fwlc_dequeue_srv`: `eb32_delete(&s->lb_node)` — drop the node from
whichever FWLC tree holds it. -/
def fwlc_dequeue_srv (p : FwlcBackend) (sid : Nat) : FwlcBackend :=
  { p with act := eb32_delete sid p.act, bck := eb32_delete sid p.bck }

/-- The FWLC sorting key of `fwlc_queue_srv`:
`s->served * SRV_EWGHT_MAX / s->eweight`. -/
def fwlc_key (s : Srv) : Nat :=
  s.served * SRV_EWGHT_MAX / s.eweight

/-- `fwlc_queue_srv`: store the key `served * SRV_EWGHT_MAX / eweight` in the
server's node and insert the node into the tree designated by `s->lb_tree`
(callers guarantee the pointer is set and the weight is positive; with the
pointer unset the insert has no target and the state is returned
unchanged). -/
def fwlc_queue_srv (p : FwlcBackend) (sid : Nat) : FwlcBackend :=
  match p.findSrv sid with
  | none => p
  | some srv =>
    let key := fwlc_key srv
    let p1 := p.updSrv sid (fun s => { s with lb_node_key := key })
    match srv.lb_tree with
    | some TreeRef.fwlcAct => { p1 with act := eb32_insert { srv with lb_node_key := key } p1.act }
    | some TreeRef.fwlcBck => { p1 with bck := eb32_insert { srv with lb_node_key := key } p1.bck }
    | _ => p1

/-- `fwlc_srv_reposition`: if the server still has a tree, dequeue it and
queue it again with a freshly computed key. -/
def fwlc_srv_reposition (p : FwlcBackend) (sid : Nat) : FwlcBackend :=
  match p.findSrv sid with
  | none => p
  | some srv =>
    if srv.lb_tree = none then p
    else fwlc_queue_srv (fwlc_dequeue_srv p sid) sid

/-- Refresh the previous-state snapshot (`out_update_state` labels):
`srv->prev_state = srv->state; srv->prev_eweight = srv->eweight`. -/
def fwlc_refresh_prev (p : FwlcBackend) (sid : Nat) : FwlcBackend :=
  p.updSrv sid (fun s => { s with prev_state := s.state, prev_eweight := s.eweight })

/-- The first usable backup server strictly after server `sid` in the
config-order list — the `do { srv2 = srv2->next } while (...)` search that
`fwlc_set_server_status_down` runs when the first backup goes down. -/
def find_next_usable_bck : List Srv → Nat → Option Nat
  | [], _ => none
  | s :: t, sid =>
    if s.id = sid then
      (t.find? (fun s2 => s2.state.backup && srv_is_usable s2.state s2.eweight)).map (fun s2 => s2.id)
    else find_next_usable_bck t sid

/-- `fwlc_set_server_status_down` (lb_fwlc.c:68-113): update the trees and
aggregates after server `sid`'s status changed to down. -/
def fwlc_set_server_status_down (p : FwlcBackend) (sid : Nat) : FwlcBackend :=
  match p.findSrv sid with
  | none => p
  | some srv =>
    if srv.state = srv.prev_state ∧ srv.eweight = srv.prev_eweight then p
    else if srv_is_usable srv.state srv.eweight then
      fwlc_refresh_prev p sid
    else if !srv_is_usable srv.prev_state srv.prev_eweight then
      fwlc_refresh_prev (update_backend_weight p) sid
    else
      let p1 :=
        if srv.state.backup then
          let p2 := { p with tot_wbck := p.tot_wbck - (srv.prev_eweight : Int),
                             srv_bck := p.srv_bck - 1 }
          if p2.fbck = some sid then
            { p2 with fbck := find_next_usable_bck p2.servers sid }
          else p2
        else
          { p with tot_wact := p.tot_wact - (srv.prev_eweight : Int),
                   srv_act := p.srv_act - 1 }
      fwlc_refresh_prev
        (update_backend_weight (fwlc_remove_from_tree (fwlc_dequeue_srv p1 sid) sid)) sid

/-- The scanning loop of `fwlc_get_next_server` (lb_fwlc.c:285-305): walk a
tree in key order, return the first server with a free slot that is not the
avoided one; the avoided server, if it has a free slot, is remembered and
returned when nothing better follows. -/
def fwlc_walk : List Srv → Option Nat → Option Srv → Option Srv
  | [], _, avoided => avoided
  | s :: t, avoid, avoided =>
    if srv_has_slot s then
      if some s.id ≠ avoid then some s
      else fwlc_walk t avoid (some s)
    else fwlc_walk t avoid avoided

/-- `fwlc_get_next_server` (lb_fwlc.c:269-308): pick the active tree when
any active server is usable, else the first-backup pointer when set, else
the backup tree when any backup server is usable, else nothing; then scan
the chosen tree.  The result is the chosen server's id. -/
def fwlc_get_next_server (p : FwlcBackend) (srvtoavoid : Option Nat) : Option Nat :=
  if p.srv_act ≠ 0 then (fwlc_walk p.act srvtoavoid none).map (fun s => s.id)
  else if p.fbck.isSome then p.fbck
  else if p.srv_bck ≠ 0 then (fwlc_walk p.bck srvtoavoid none).map (fun s => s.id)
  else none

/-- The weight of the usable non-backup servers of a list, judged on the
current state fields — the quantity `tot_wact` is specified to track. -/
def usableActWeight (l : List Srv) : Int :=
  (l.map (fun s =>
    if s.state.backup = false ∧ srv_is_usable s.state s.eweight = true
    then (s.eweight : Int) else 0)).sum

/-- As `usableActWeight`, but judged on the previous-state snapshot fields —
the aggregate the bookkeeping code actually maintains between calls. -/
def usableActWeightPrev (l : List Srv) : Int :=
  (l.map (fun s =>
    if s.prev_state.backup = false ∧ srv_is_usable s.prev_state s.prev_eweight = true
    then (s.prev_eweight : Int) else 0)).sum

/-- The weight of the usable backup servers, on current fields. -/
def usableBckWeight (l : List Srv) : Int :=
  (l.map (fun s =>
    if s.state.backup = true ∧ srv_is_usable s.state s.eweight = true
    then (s.eweight : Int) else 0)).sum

/-- As `usableBckWeight`, on the previous-state snapshot fields. -/
def usableBckWeightPrev (l : List Srv) : Int :=
  (l.map (fun s =>
    if s.prev_state.backup = true ∧ srv_is_usable s.prev_state s.prev_eweight = true
    then (s.prev_eweight : Int) else 0)).sum

/-! ## FWRR backend state (proxy + lbprm.fwrr) -/

/-- One FWRR group (`struct fwrr_group`): the current tree, the two physical
roots `t0`/`t1` behind the swapping `init`/`next` pointers (`init_is_t0`
records which physical root `init` designates), and the position/weight
scalars. -/
structure FwrrGroup where
  curr : List Srv
  t0 : List Srv
  t1 : List Srv
  init_is_t0 : Bool
  curr_pos : Nat
  curr_weight : Nat
  next_weight : Nat
deriving DecidableEq, Repr

namespace FwrrGroup

/-- The tree designated by `grp->init`. -/
def initTree (grp : FwrrGroup) : List Srv :=
  if grp.init_is_t0 then grp.t0 else grp.t1

/-- The `TreeRef` tag of the tree designated by `grp->init`. -/
def initRef (grp : FwrrGroup) : TreeRef :=
  if grp.init_is_t0 then TreeRef.grpT0 else TreeRef.grpT1

/-- The `TreeRef` tag of the tree designated by `grp->next`. -/
def nextRef (grp : FwrrGroup) : TreeRef :=
  if grp.init_is_t0 then TreeRef.grpT1 else TreeRef.grpT0

/-- Write back the tree designated by a tag. -/
def setTree (grp : FwrrGroup) (r : TreeRef) (l : List Srv) : FwrrGroup :=
  match r with
  | TreeRef.grpCurr => { grp with curr := l }
  | TreeRef.grpT0 => { grp with t0 := l }
  | TreeRef.grpT1 => { grp with t1 := l }
  | _ => grp

/-- Read the tree designated by a tag. -/
def getTree (grp : FwrrGroup) (r : TreeRef) : List Srv :=
  match r with
  | TreeRef.grpCurr => grp.curr
  | TreeRef.grpT0 => grp.t0
  | TreeRef.grpT1 => grp.t1
  | _ => []

end FwrrGroup

/-- `fwrr_queue_by_weight`: key the server by inverted weight
(`SRV_EWGHT_MAX - s->eweight`, heaviest first) and insert it into the tree
designated by `root`, recording the tree in `s->lb_tree`.  The embedded
code only queues servers with `eweight ≤ SRV_EWGHT_MAX`, for which the
`Nat` subtraction agrees with the C one. -/
def fwrr_queue_by_weight (grp : FwrrGroup) (root : TreeRef) (s : Srv) : FwrrGroup :=
  let s' := { s with lb_node_key := SRV_EWGHT_MAX - s.eweight, lb_tree := some root }
  grp.setTree root (eb32_insert s' (grp.getTree root))

/-- `fwrr_dequeue_srv`: `eb32_delete(&s->lb_node)` — drop the node from
whichever of the group's trees holds it. -/
def fwrr_dequeue_srv (grp : FwrrGroup) (sid : Nat) : FwrrGroup :=
  { grp with curr := eb32_delete sid grp.curr,
             t0 := eb32_delete sid grp.t0,
             t1 := eb32_delete sid grp.t1 }

/-- `fwrr_queue_srv` (lb_fwrr.c:319-354): a non-usable server is detached; a
server whose next position falls beyond the current and theoretical next
windows is delayed into the `next` tree with `npos` pulled back by
`curr_weight`; otherwise it is inserted into `curr` under the key
`SRV_UWGHT_RANGE * npos + (SRV_EWGHT_MAX + rweight - eweight) / BE_WEIGHT_SCALE`.
(The code queues only servers with `eweight ≤ SRV_EWGHGT_MAX`, i.e. the two
`Nat` subtractions agree with the C arithmetic; the detached branch drops
the record from the group, its fields living on in the caller when one
exists.) -/
def fwrr_queue_srv (grp : FwrrGroup) (s : Srv) : FwrrGroup :=
  if !srv_is_usable s.state s.eweight then
    grp
  else if s.eweight = 0 ∨ s.npos ≥ 2 * grp.curr_weight ∨
          s.npos ≥ grp.curr_weight + grp.next_weight then
    let s' := { s with npos := s.npos - grp.curr_weight }
    fwrr_queue_by_weight grp grp.nextRef s'
  else
    let key := SRV_UWGHT_RANGE * s.npos +
      (SRV_EWGHT_MAX + s.rweight - s.eweight) / BE_WEIGHT_SCALE
    let s' := { s with lb_node_key := key, lb_tree := some TreeRef.grpCurr }
    { grp with curr := eb32_insert s' grp.curr }

/-- `fwrr_get_srv_init`: entering from the `init` tree resets the rotation
position. -/
def fwrr_get_srv_init (s : Srv) : Srv :=
  { s with npos := 0, rweight := 0 }

/-- `fwrr_get_srv_next`: entering from the `next` tree advances the position
by a full cycle. -/
def fwrr_get_srv_next (grp : FwrrGroup) (s : Srv) : Srv :=
  { s with npos := s.npos + grp.curr_weight }

/-- `fwrr_get_srv_down`: a server re-entering from no tree restarts at the
current position. -/
def fwrr_get_srv_down (grp : FwrrGroup) (s : Srv) : Srv :=
  { s with npos := grp.curr_pos }

/-- `fwrr_get_srv`: dispatch on which tree the server is leaving. -/
def fwrr_get_srv (grp : FwrrGroup) (s : Srv) : Srv :=
  if s.lb_tree = some grp.initRef then fwrr_get_srv_init s
  else if s.lb_tree = some grp.nextRef then fwrr_get_srv_next grp s
  else if s.lb_tree = none then fwrr_get_srv_down grp s
  else s

/-- `fwrr_switch_trees`: swap `init` and `next`, restart the window with
`curr_weight = next_weight` and `curr_pos = curr_weight`. -/
def fwrr_switch_trees (grp : FwrrGroup) : FwrrGroup :=
  { grp with init_is_t0 := !grp.init_is_t0,
             curr_weight := grp.next_weight,
             curr_pos := grp.next_weight }

/-- `fwrr_get_server_from_group` (lb_fwrr.c:417-441): take the leftmost
server of `curr` unless it is missing or scheduled past `curr_pos`, in which
case take the leftmost of `init` (resetting its position, and rejecting a
zero-weight entry).  The taken server's record is updated in place in its
tree; nothing is dequeued here. -/
def fwrr_get_server_from_group (grp : FwrrGroup) : FwrrGroup × Option Srv :=
  let fromInit : FwrrGroup × Option Srv :=
    match grp.initTree with
    | [] => (grp, none)
    | s :: _ =>
      let s' := fwrr_get_srv_init s
      let grp' := grp.setTree grp.initRef (updSrvList s.id fwrr_get_srv_init (grp.getTree grp.initRef))
      if s'.eweight = 0 then (grp', none) else (grp', some s')
  match grp.curr with
  | [] => fromInit
  | s :: _ => if s.npos > grp.curr_pos then fromInit else (grp, some s)

/-- `fwrr_update_position` (lb_fwrr.c:446-468): compute the next position of
a server that has just been extracted; requires a positive `eweight`. -/
def fwrr_update_position (grp : FwrrGroup) (s : Srv) : Srv :=
  if s.npos = 0 then
    let s1 := { s with lpos := grp.curr_pos,
                       npos := grp.curr_pos + grp.next_weight / s.eweight,
                       rweight := s.rweight + grp.next_weight % s.eweight }
    if s1.rweight ≥ s1.eweight then
      { s1 with rweight := s1.rweight - s1.eweight, npos := s1.npos + 1 }
    else s1
  else
    let s1 := { s with lpos := s.npos,
                       npos := s.npos + grp.next_weight / s.eweight,
                       rweight := s.rweight + grp.next_weight % s.eweight }
    if s1.rweight ≥ s1.eweight then
      { s1 with rweight := s1.rweight - s1.eweight, npos := s1.npos + 1 }
    else s1

/-- Result of the inner scanning loop of `fwrr_get_next_server`: a server
was found in the trees, or the remembered avoided server must be reused, or
the group is exhausted. -/
inductive FwrrInnerRes where
  | found (s : Srv)
  | useAvoided
  | giveUp
deriving DecidableEq, Repr

/-- The inner `while (1)` of `fwrr_get_next_server` (lb_fwrr.c:502-516):
fetch a server from the group; on failure switch the trees, but only once —
a second failure falls back to the avoided server or gives up.  The loop
runs at most two fetches, so it needs no fuel. -/
def fwrr_inner (grp : FwrrGroup) (switched : Bool) (avoided : Option Srv) :
    FwrrGroup × Bool × FwrrInnerRes :=
  match fwrr_get_server_from_group grp with
  | (grp1, some s) => (grp1, switched, FwrrInnerRes.found s)
  | (grp1, none) =>
    if switched then
      (grp1, switched, if avoided.isSome then FwrrInnerRes.useAvoided else FwrrInnerRes.giveUp)
    else
      let grp2 := fwrr_switch_trees grp1
      match fwrr_get_server_from_group grp2 with
      | (grp3, some s) => (grp3, true, FwrrInnerRes.found s)
      | (grp3, none) =>
        (grp3, true, if avoided.isSome then FwrrInnerRes.useAvoided else FwrrInnerRes.giveUp)

/-- `requeue_servers` (lb_fwrr.c:542-567): reinsert the servers chained on
the `full` list, skipping the finally chosen one; after a tree switch their
places are lost and they go back to `init` by weight, otherwise they are
requeued as if consumed.  The C chain is walked from its head, which is the
most recently chained server, matching `List.foldl` over the accumulated
list. -/
def fwrr_requeue (grp : FwrrGroup) (switched : Bool) (chosen : Option Nat)
    (full : List Srv) : FwrrGroup :=
  full.foldl
    (fun g s =>
      if some s.id = chosen then g
      else if switched then fwrr_queue_by_weight g g.initRef s
      else fwrr_queue_srv g s)
    grp

/-- One step of the outer `while (1)` of `fwrr_get_next_server`
(lb_fwrr.c:492-537) applied to an extracted server `s`: update its position,
dequeue it, advance `curr_pos`, and either keep it (free slot, not the
avoided one — or the avoided one already remembered), remember it as
avoided, or chain it on the `full` list. -/
inductive FwrrStepRes where
  | chosen (grp : FwrrGroup) (s : Srv) (full : List Srv)
  | again (grp : FwrrGroup) (avoided : Option Srv) (full : List Srv)
deriving Repr

def fwrr_process_srv (grp : FwrrGroup) (avoid : Option Nat) (avoided : Option Srv)
    (full : List Srv) (s : Srv) : FwrrStepRes :=
  let s1 := fwrr_update_position grp s
  let grp1 := fwrr_dequeue_srv grp s1.id
  let grp2 := { grp1 with curr_pos := grp1.curr_pos + 1 }
  if srv_has_slot s1 then
    if some s1.id ≠ avoid ∨ avoided.isSome then
      FwrrStepRes.chosen grp2 s1 full
    else
      FwrrStepRes.again grp2 (some s1) (s1 :: full)
  else
    FwrrStepRes.again grp2 avoided (s1 :: full)

/-- The outer `while (1)` of `fwrr_get_next_server`, fuelled: each turn
re-arms an empty window, runs the inner fetch loop and processes the fetched
server.  Returns the updated group, the chosen server (none when the group
is exhausted or fuel runs out — any fuel greater than the number of queued
servers plus one is enough), whether the trees were switched, and the
chained `full` list. -/
def fwrr_loop : Nat → FwrrGroup → Option Nat → Bool → Option Srv → List Srv →
    FwrrGroup × Option Srv × Bool × List Srv
  | 0, grp, _, switched, _, full => (grp, none, switched, full)
  | fuel + 1, grp, avoid, switched, avoided, full =>
    let grp0 := if grp.curr_weight = 0 then
        { grp with curr_pos := grp.next_weight, curr_weight := grp.next_weight }
      else grp
    match fwrr_inner grp0 switched avoided with
    | (grp1, switched1, FwrrInnerRes.giveUp) => (grp1, none, switched1, full)
    | (grp1, switched1, FwrrInnerRes.useAvoided) =>
      match avoided with
      | none => (grp1, none, switched1, full)
      | some av =>
        match fwrr_process_srv grp1 avoid avoided full av with
        | FwrrStepRes.chosen grp2 s full2 => (grp2, some s, switched1, full2)
        | FwrrStepRes.again grp2 avoided2 full2 =>
          fwrr_loop fuel grp2 avoid switched1 avoided2 full2
    | (grp1, switched1, FwrrInnerRes.found s) =>
      match fwrr_process_srv grp1 avoid avoided full s with
      | FwrrStepRes.chosen grp2 s2 full2 => (grp2, some s2, switched1, full2)
      | FwrrStepRes.again grp2 avoided2 full2 =>
        fwrr_loop fuel grp2 avoid switched1 avoided2 full2

/-- The part of `struct proxy` and its `lbprm` that `lb_fwrr.c` uses. -/
structure FwrrBackend where
  act : FwrrGroup
  bck : FwrrGroup
  tot_wact : Int
  tot_wbck : Int
  srv_act : Int
  srv_bck : Int
  fbck : Option Nat
deriving DecidableEq, Repr

/-- `fwrr_get_next_server` (lb_fwrr.c:474-569): pick the active group when
any active server is usable, else return the first-backup pointer, else pick
the backup group, else nothing; then run the scanning loop, queue the chosen
server back and requeue the chained full servers.  Returns the updated
backend and the chosen server's id. -/
def fwrr_get_next_server (fuel : Nat) (p : FwrrBackend) (srvtoavoid : Option Nat) :
    FwrrBackend × Option Nat :=
  if p.srv_act ≠ 0 then
    let (grp, res, switched, full) := fwrr_loop fuel p.act srvtoavoid false none []
    match res with
    | some s =>
      let grp1 := fwrr_queue_srv grp s
      ({ p with act := fwrr_requeue grp1 switched (some s.id) full }, some s.id)
    | none => ({ p with act := fwrr_requeue grp switched none full }, none)
  else if p.fbck.isSome then (p, p.fbck)
  else if p.srv_bck ≠ 0 then
    let (grp, res, switched, full) := fwrr_loop fuel p.bck srvtoavoid false none []
    match res with
    | some s =>
      let grp1 := fwrr_queue_srv grp s
      ({ p with bck := fwrr_requeue grp1 switched (some s.id) full }, some s.id)
    | none => ({ p with bck := fwrr_requeue grp switched none full }, none)
  else (p, none)

/-! ## Speculative epoll engine (ev_sepoll.c) -/

/-- `FD_EV_IN_SL`: the in-spec-list bit of one direction. -/
def FD_EV_IN_SL : Nat := 1

/-- `FD_EV_IN_PL`: the in-poll-list bit of one direction. -/
def FD_EV_IN_PL : Nat := 4

/-- `FD_EV_IDLE`. -/
def FD_EV_IDLE : Nat := 0

/-- `FD_EV_SPEC`. -/
def FD_EV_SPEC : Nat := FD_EV_IN_SL

/-- `FD_EV_WAIT`. -/
def FD_EV_WAIT : Nat := FD_EV_IN_PL

/-- `FD_EV_STOP`. -/
def FD_EV_STOP : Nat := FD_EV_IN_SL + FD_EV_IN_PL

/-- `FD_EV_MASK_DIR`. -/
def FD_EV_MASK_DIR : Nat := FD_EV_IN_SL + FD_EV_IN_PL

/-- `FD_EV_RW_SL`: any of the two in-spec-list bits. -/
def FD_EV_RW_SL : Nat := FD_EV_IN_SL + (FD_EV_IN_SL <<< 1)

/-- `FD_EV_MASK`: all four state bits. -/
def FD_EV_MASK : Nat := 15

/-- `DIR_RD`. -/
def DIR_RD : Nat := 0

/-- `DIR_WR`. -/
def DIR_WR : Nat := 1

/-- The per-process state of the speculative engine:
`events fd` is `fdtab[fd].spec.e` (the 4-bit interleaved state word),
`backref fd` is `fdtab[fd].spec.s1` (the 1-based back reference, 0 meaning
absent), and `slist` is `spec_list[0..nbspec)` (`nbspec` being the list
length).  Both per-fd arrays have one slot per possible fd. -/
structure SpecState where
  events : List Nat
  backref : List Nat
  slist : List Nat
deriving DecidableEq, Repr

/-- The fresh engine state: both per-fd arrays are zeroed (`calloc`) and the
spec list is empty. -/
def specInit (nfd : Nat) : SpecState :=
  { events := List.replicate nfd 0, backref := List.replicate nfd 0, slist := [] }

/-- Whether a spec event word has an in-spec-list bit for some direction
(`e & FD_EV_RW_SL`). -/
def hasSL (e : Nat) : Bool :=
  e &&& FD_EV_RW_SL ≠ 0

/-- `alloc_spec_entry` (ev_sepoll.c:168-176): give `fd` a spec-list entry
unless it already has one. -/
def alloc_spec_entry (st : SpecState) (fd : Nat) : SpecState :=
  if st.backref.getD fd 0 ≠ 0 then st
  else { st with backref := st.backref.set fd (st.slist.length + 1),
                 slist := st.slist ++ [fd] }

/-- `release_spec_entry` (ev_sepoll.c:182-202): remove `fd`'s entry from the
spec list, moving the last entry into the hole and fixing its back
reference. -/
def release_spec_entry (st : SpecState) (fd : Nat) : SpecState :=
  let pos := st.backref.getD fd 0
  if pos = 0 then st
  else
    let br := st.backref.set fd 0
    let pos := pos - 1
    let n := st.slist.length - 1
    if pos = n then { st with backref := br, slist := st.slist.take n }
    else
      let last := st.slist.getD n 0
      { st with backref := br.set last (pos + 1),
                slist := (st.slist.set pos last).take n }

/-- `__fd_is_set` of ev_sepoll.c: the direction is watched iff its 2-bit
state is SPEC or WAIT. -/
def sepoll_fd_is_set (st : SpecState) (fd dir : Nat) : Bool :=
  let ret := (st.events.getD fd 0 >>> dir) &&& FD_EV_MASK_DIR
  ret == FD_EV_SPEC || ret == FD_EV_WAIT

/-- `__fd_set` of ev_sepoll.c (207-246): IDLE switches to SPEC (allocating a
spec entry), STOP switches back to WAIT; SPEC and WAIT are left untouched
and reported unchanged.  Returns the new state and whether anything
changed.  (The `fd_created` counter incremented beside `alloc_spec_entry`
only drives the post-accept re-poll and is not part of this state.) -/
def sepoll_fd_set (st : SpecState) (fd dir : Nat) : SpecState × Bool :=
  let i := (st.events.getD fd 0 >>> dir) &&& FD_EV_MASK_DIR
  if i ≠ FD_EV_STOP ∧ i ≠ FD_EV_IDLE then (st, false)
  else
    let st1 := if i = FD_EV_STOP then st else alloc_spec_entry st fd
    ({ st1 with events := st1.events.set fd (st1.events.getD fd 0 ^^^ (FD_EV_IN_SL <<< dir)) },
     true)

/-- `__fd_clr` of ev_sepoll.c (248-272): SPEC switches to IDLE, WAIT
switches to STOP (allocating a spec entry so the poller notices it later);
IDLE and STOP are left untouched and reported unchanged. -/
def sepoll_fd_clr (st : SpecState) (fd dir : Nat) : SpecState × Bool :=
  let i := (st.events.getD fd 0 >>> dir) &&& FD_EV_MASK_DIR
  if i ≠ FD_EV_SPEC ∧ i ≠ FD_EV_WAIT then (st, false)
  else
    let st1 := if i = FD_EV_SPEC then st else alloc_spec_entry st fd
    ({ st1 with events := st1.events.set fd (st1.events.getD fd 0 ^^^ (FD_EV_IN_SL <<< dir)) },
     true)

/-- `__fd_clo` of ev_sepoll.c (285-289): release the spec entry and clear
all four state bits of the event word. -/
def sepoll_fd_clo (st : SpecState) (fd : Nat) : SpecState :=
  let st1 := release_spec_entry st fd
  { st1 with events := st1.events.set fd (st1.events.getD fd 0 >>> 4 <<< 4) }

/-- The engine entry points that application code may invoke between two
turns of the poller (`fd_set`, `fd_clr` per direction, and the close
notification). -/
inductive SpecOp where
  | set (fd dir : Nat)
  | clr (fd dir : Nat)
  | clo (fd : Nat)
deriving DecidableEq, Repr

/-- Dispatch one entry point.  Callers of the C functions always pass a live
fd below `maxfd` and a valid direction; an out-of-range call is a no-op
here, standing for that precondition. -/
def specStep (st : SpecState) (op : SpecOp) : SpecState :=
  match op with
  | SpecOp.set fd dir =>
    if fd < st.events.length ∧ dir < 2 then (sepoll_fd_set st fd dir).1 else st
  | SpecOp.clr fd dir =>
    if fd < st.events.length ∧ dir < 2 then (sepoll_fd_clr st fd dir).1 else st
  | SpecOp.clo fd =>
    if fd < st.events.length then sepoll_fd_clo st fd else st

/-- Run a sequence of entry points from a state. -/
def specRun (st : SpecState) : List SpecOp → SpecState
  | [] => st
  | op :: ops => specRun (specStep st op) ops

/-- The structural spec-list discipline the engine maintains: the two per-fd
arrays have equal length; every occupied spec-list slot holds an in-range fd
whose back reference is exactly the slot index plus one; every fd with a
non-zero back reference is pointed back at by the designated slot; and every
fd whose event word has an in-spec-list bit has a (non-zero) back
reference. -/
def specInv (st : SpecState) : Bool :=
  (st.backref.length == st.events.length) &&
  ((List.range st.slist.length).all (fun i =>
    let fd := st.slist.getD i 0
    decide (fd < st.events.length) && (st.backref.getD fd 0 == i + 1))) &&
  ((List.range st.events.length).all (fun fd =>
    let s1 := st.backref.getD fd 0
    (s1 == 0 || (decide (s1 ≤ st.slist.length) && (st.slist.getD (s1 - 1) 0 == fd))) &&
    (!hasSL (st.events.getD fd 0) || decide (s1 ≠ 0))))

/-- The spec-list bijection property exactly as the specification states it:
every fd with an in-spec-list bit occupies the slot its back reference
designates, and — conversely — every occupied slot holds an fd whose event
word still has an in-spec-list bit. -/
def specBijectionClaim (st : SpecState) : Bool :=
  ((List.range st.events.length).all (fun fd =>
    !hasSL (st.events.getD fd 0) ||
    ((st.slist.count fd == 1) &&
     (st.slist.getD (st.backref.getD fd 0 - 1) 0 == fd) &&
     decide (st.backref.getD fd 0 ≠ 0)))) &&
  (st.slist.all (fun fd => hasSL (st.events.getD fd 0)))

/-! ### The kernel-wait skip decision of `_do_poll` (ev_sepoll.c:439-488) -/

/-- `MIN_RETURN_EVENTS` (ev_sepoll.c:150). -/
def MIN_RETURN_EVENTS : Nat := 25

/-- The static counters of `_do_poll` that survive between turns. -/
structure SepollTurnState where
  last_skipped : Nat
  spec_processed : Nat
deriving DecidableEq, Repr

/-- The wait decision of one `_do_poll` turn, given the number `status` of
speculative events completed by the spec walk and whether this is the
re-poll pass over freshly accepted fds (`looping`).  Returns `true` when
`epoll_wait` is executed, together with the counters as left for the next
turn (ev_sepoll.c:439-488: `spec_processed += status;` then the
`MIN_RETURN_EVENTS` skip window limited by `++last_skipped <= 1`, both
counters being reset on the path that reaches `epoll_wait`). -/
def sepoll_wait_decision (absmaxevents : Nat) (st : SepollTurnState)
    (status : Nat) (looping : Bool) : Bool × SepollTurnState :=
  let sp := st.spec_processed + status
  if looping then
    (false, { last_skipped := st.last_skipped + 1, spec_processed := sp })
  else if MIN_RETURN_EVENTS ≤ status ∧ sp < absmaxevents ∧ st.last_skipped + 1 ≤ 1 then
    (false, { last_skipped := st.last_skipped + 1, spec_processed := sp })
  else
    (true, { last_skipped := 0, spec_processed := 0 })

/-! ## kqueue engine (ev_kqueue.c) -/

/-- The kqueue engine's state: the two direction bitsets `fd_evts[DIR_RD]`
and `fd_evts[DIR_WR]`, indexed by fd.  The kernel change lists pushed by
`kevent` carry no engine-visible state and are not modelled. -/
structure KqueueState where
  fd_evts : List Bool × List Bool
deriving DecidableEq, Repr

/-- Select a direction's bitset. -/
def kqueue_evts (st : KqueueState) (dir : Nat) : List Bool :=
  if dir = DIR_RD then st.fd_evts.1 else st.fd_evts.2

/-- `__fd_is_set` of ev_kqueue.c: `FD_ISSET(fd, fd_evts[dir])`. -/
def kqueue_fd_is_set (st : KqueueState) (fd dir : Nat) : Bool :=
  (kqueue_evts st dir).getD fd false

/-- `__fd_set` of ev_kqueue.c (63-73): nothing to do when the bit is already
set; otherwise set it and push an `EV_ADD` change. -/
def kqueue_fd_set (st : KqueueState) (fd dir : Nat) : KqueueState × Bool :=
  if (kqueue_evts st dir).getD fd false then (st, false)
  else
    let l := (kqueue_evts st dir).set fd true
    (if dir = DIR_RD then ({ fd_evts := (l, st.fd_evts.2) }, true)
     else ({ fd_evts := (st.fd_evts.1, l) }, true))

/-- `kqev_del` + `__fd_clr` of ev_kqueue.c (45-53, 75-81): nothing to do
when the bit is already clear; otherwise clear it and push an `EV_DELETE`
change. -/
def kqueue_fd_clr (st : KqueueState) (fd dir : Nat) : KqueueState × Bool :=
  if !((kqueue_evts st dir).getD fd false) then (st, false)
  else
    let l := (kqueue_evts st dir).set fd false
    (if dir = DIR_RD then ({ fd_evts := (l, st.fd_evts.2) }, true)
     else ({ fd_evts := (st.fd_evts.1, l) }, true))

/-! ## Outbound connector (proto_tcp.c, tcp_connect_server) -/

/-- The stream-interface target types `tcp_connect_server` accepts. -/
inductive TargType where
  | targ_proxy
  | targ_server
  | targ_other
deriving DecidableEq, Repr

/-- The `errno` outcomes of the non-blocking `connect` call that
`tcp_connect_server` distinguishes; `errOther` stands for every remaining
error (`ECONNREFUSED`, `ENETUNREACH`, ...). -/
inductive ConnectErrno where
  | errInProgress
  | errAlready
  | errIsConn
  | errAgain
  | errAddrInUse
  | errTimedOut
  | errOther
deriving DecidableEq, Repr

/-- The error taxonomy returned by `tcp_connect_server`. -/
inductive SnErr where
  | errNone
  | errSrvTo
  | errSrvCl
  | errPrxCond
  | errResource
  | errInternal
deriving DecidableEq, Repr

/-- The outcomes of the external calls `tcp_connect_server` makes, which
determine its control flow: the target type, the fd returned by `socket()`
(none on failure), the process `maxsock` bound, whether the
`fcntl`/`TCP_NODELAY` pair succeeded, whether a source binding is requested
(server- or proxy-level) and the `tcp_bind_socket` return (0 on success, 1
or 2 on the two failure kinds), and the `connect()` errno (none when
`connect` returned 0). -/
structure TcpConnectEnv where
  target : TargType
  socket_fd : Option Nat
  maxsock : Nat
  fcntl_ok : Bool
  src_bind : Bool
  bind_ret : Nat
  connect_errno : Option ConnectErrno
deriving DecidableEq, Repr

/-- The externally visible effects of one `tcp_connect_server` call: the
return code; whether the fd was closed again; whether the allocated source
port was released; and, on the success path, whether the fd was inserted in
the FD registry in the connecting state, registered for write interest, the
stream interface moved to `SI_ST_CON`, and the connect-timeout deadline
stamped into `si->exp`. -/
structure TcpConnectResult where
  ret : SnErr
  fd_closed : Bool
  port_released : Bool
  fd_state_conn : Bool
  ev_set_wr : Bool
  si_st_con : Bool
  exp_stamped : Bool
deriving DecidableEq, Repr

/-- A result with every effect flag off (helper for the error exits). -/
def tcpFail (e : SnErr) (closed released : Bool) : TcpConnectResult :=
  { ret := e, fd_closed := closed, port_released := released,
    fd_state_conn := false, ev_set_wr := false, si_st_con := false,
    exp_stamped := false }

/-- `tcp_connect_server` (proto_tcp.c:212-462): the target check, socket
creation, `maxsock` bound, non-blocking setup, source binding, and the
translation of the `connect()` outcome into the stream-interface state and
the `SN_ERR_*` taxonomy. -/
def tcp_connect_server (env : TcpConnectEnv) : TcpConnectResult :=
  if env.target = TargType.targ_other then tcpFail SnErr.errInternal false false
  else match env.socket_fd with
  | none => tcpFail SnErr.errResource false false
  | some fd =>
    if env.maxsock ≤ fd then tcpFail SnErr.errPrxCond true false
    else if !env.fcntl_ok then tcpFail SnErr.errInternal true false
    else if env.src_bind ∧ env.bind_ret ≠ 0 then tcpFail SnErr.errResource true true
    else
      match env.connect_errno with
      | none => { ret := SnErr.errNone, fd_closed := false, port_released := false,
                  fd_state_conn := true, ev_set_wr := true, si_st_con := true,
                  exp_stamped := true }
      | some e =>
        if e = ConnectErrno.errInProgress ∨ e = ConnectErrno.errAlready ∨
           e = ConnectErrno.errIsConn then
          { ret := SnErr.errNone, fd_closed := false, port_released := false,
            fd_state_conn := true, ev_set_wr := true, si_st_con := true,
            exp_stamped := true }
        else if e = ConnectErrno.errAgain ∨ e = ConnectErrno.errAddrInUse then
          tcpFail SnErr.errResource true true
        else if e = ConnectErrno.errTimedOut then
          tcpFail SnErr.errSrvTo true true
        else
          tcpFail SnErr.errSrvCl true true

/-- The structural part of the spec-list discipline, as a proposition: the
per-fd arrays agree in length, every occupied slot holds an in-range fd
back-referenced to that slot, every non-zero back reference designates a
slot pointing back at its fd, and every event word fits the 4-bit field. -/
def specInvCore (st : SpecState) : Prop :=
  st.backref.length = st.events.length ∧
  (∀ i, i < st.slist.length → st.slist.getD i 0 < st.events.length ∧
      st.backref.getD (st.slist.getD i 0) 0 = i + 1) ∧
  (∀ fd, fd < st.events.length → st.backref.getD fd 0 ≠ 0 →
      st.backref.getD fd 0 ≤ st.slist.length ∧
      st.slist.getD (st.backref.getD fd 0 - 1) 0 = fd) ∧
  (∀ fd, fd < st.events.length → st.events.getD fd 0 < 16)

/-- The full spec-list discipline: the structural part plus the forward
direction of the bijection — every fd whose event word carries an
in-spec-list bit has a (non-zero) back reference. -/
def specInvP (st : SpecState) : Prop :=
  specInvCore st ∧
  (∀ fd, fd < st.events.length → hasSL (st.events.getD fd 0) = true →
      st.backref.getD fd 0 ≠ 0)

/-- The specification's reading of one scanning round of
`fwlc_get_next_server`: the result designates a lowest-key server of the
tree among those with a free slot, and is nothing exactly when no queued
server has a free slot. -/
def lowestFree (t : List Srv) (r : Option Nat) : Prop :=
  match r with
  | none => ∀ u ∈ t, srv_has_slot u = false
  | some i => ∃ s ∈ t, s.id = i ∧ srv_has_slot s = true ∧
      ∀ u ∈ t, srv_has_slot u = true → s.lb_node_key ≤ u.lb_node_key

/-! ## Helper lemmas on lists -/

theorem getD_set_self {α : Type} (l : List α) (i : Nat) (v d : α) (h : i < l.length) :
    (l.set i v).getD i d = v := by
  induction l generalizing i with
  | nil => simp at h
  | cons a t ih =>
    cases i with
    | zero => rfl
    | succ n => simpa using ih n (by simpa using h)

theorem getD_set_ne {α : Type} (l : List α) (i j : Nat) (v d : α) (h : i ≠ j) :
    (l.set i v).getD j d = l.getD j d := by
  induction l generalizing i j with
  | nil => simp [List.set]
  | cons a t ih =>
    cases i with
    | zero =>
      cases j with
      | zero => exact absurd rfl h
      | succ m => rfl
    | succ n =>
      cases j with
      | zero => rfl
      | succ m => simpa using ih n m (by omega)

theorem getD_take_lt {α : Type} (l : List α) (n j : Nat) (d : α) (h : j < n) :
    (l.take n).getD j d = l.getD j d := by
  induction l generalizing n j with
  | nil => simp
  | cons a t ih =>
    cases n with
    | zero => omega
    | succ m =>
      cases j with
      | zero => rfl
      | succ k => simpa using ih m k (by omega)

theorem getD_append_last {α : Type} (l : List α) (x d : α) :
    (l ++ [x]).getD l.length d = x := by
  induction l with
  | nil => rfl
  | cons a t ih => simp [ih]

theorem getD_append_lt {α : Type} (l l2 : List α) (j : Nat) (d : α) (h : j < l.length) :
    (l ++ l2).getD j d = l.getD j d := by
  induction l generalizing j with
  | nil => simp at h
  | cons a t ih =>
    cases j with
    | zero => rfl
    | succ k => simpa using ih k (by simpa using h)

/-! ## C4: the FWRR position update -/

/-- C4.  For every server with `eweight > 0` selected by the weighted
round-robin group, `fwrr_update_position` sets `lpos` to `curr_pos` on first
appearance (`npos == 0`) and to the old `npos` on subsequent turns, advances
`npos` from that base by `floor(next_weight / eweight)`, accumulates
`next_weight mod eweight` into `rweight`, and carries one extra position
while reducing `rweight` by `eweight` when `rweight` reaches `eweight`. -/
theorem fwrr_update_position_spec (grp : FwrrGroup) (s : Srv) (h : 0 < s.eweight) :
    (fwrr_update_position grp s).lpos = (if s.npos = 0 then grp.curr_pos else s.npos) ∧
    (fwrr_update_position grp s).npos =
      (if s.rweight + grp.next_weight % s.eweight ≥ s.eweight
       then (if s.npos = 0 then grp.curr_pos else s.npos) + grp.next_weight / s.eweight + 1
       else (if s.npos = 0 then grp.curr_pos else s.npos) + grp.next_weight / s.eweight) ∧
    (fwrr_update_position grp s).rweight =
      (if s.rweight + grp.next_weight % s.eweight ≥ s.eweight
       then s.rweight + grp.next_weight % s.eweight - s.eweight
       else s.rweight + grp.next_weight % s.eweight) := by
  unfold fwrr_update_position
  by_cases h0 : s.npos = 0 <;> by_cases hc : s.rweight + grp.next_weight % s.eweight ≥ s.eweight <;>
    simp [h0, hc]

/-- Witness for C4 at a concrete input: group at position 7 with
`next_weight = 10`, server with `eweight = 4`, `npos = 0`, `rweight = 3`:
the carry fires (`3 + 10 % 4 = 5 ≥ 4`), so `lpos = 7`, `npos = 7 + 2 + 1`,
`rweight = 1`. -/
theorem fwrr_update_position_spec_witness :
    (fwrr_update_position
      { curr := [], t0 := [], t1 := [], init_is_t0 := true,
        curr_pos := 7, curr_weight := 10, next_weight := 10 }
      { id := 1, state := ⟨true, false, false, false⟩, prev_state := ⟨true, false, false, false⟩,
        eweight := 4, prev_eweight := 4, uweight := 1, served := 0, nbpend := 0,
        maxconn := 0, dyn_maxconn := 0, lb_tree := none, lb_node_key := 0,
        lpos := 0, npos := 0, rweight := 3 }).lpos = 7 := by
  have h := fwrr_update_position_spec
    { curr := [], t0 := [], t1 := [], init_is_t0 := true,
      curr_pos := 7, curr_weight := 10, next_weight := 10 }
    { id := 1, state := ⟨true, false, false, false⟩, prev_state := ⟨true, false, false, false⟩,
      eweight := 4, prev_eweight := 4, uweight := 1, served := 0, nbpend := 0,
      maxconn := 0, dyn_maxconn := 0, lb_tree := none, lb_node_key := 0,
      lpos := 0, npos := 0, rweight := 3 } (by decide)
  simpa using h.1

/-! ## C6: the kernel-wait skip decision -/

/-- C6.  In the speculative engine's poll function (non-looping turns), the
kernel wait is skipped only when at least `MIN_RETURN_EVENTS` speculative
events completed this turn and fewer than `absmaxevents` events were
processed since the last wait; and a skip is never repeated: whenever a turn
skips the wait, the next non-looping turn executes `epoll_wait` whatever its
spec walk produced. -/
theorem sepoll_skip_spec (absmaxevents : Nat) (st : SepollTurnState) (status status2 : Nat) :
    ((sepoll_wait_decision absmaxevents st status false).1 = false →
      MIN_RETURN_EVENTS ≤ status ∧ st.spec_processed + status < absmaxevents) ∧
    ((sepoll_wait_decision absmaxevents st status false).1 = false →
      (sepoll_wait_decision absmaxevents
        (sepoll_wait_decision absmaxevents st status false).2 status2 false).1 = true) := by
  have hD : ∀ (st' : SepollTurnState) (status' : Nat),
      sepoll_wait_decision absmaxevents st' status' false =
      (if MIN_RETURN_EVENTS ≤ status' ∧ st'.spec_processed + status' < absmaxevents ∧
          st'.last_skipped + 1 ≤ 1
       then (false, { last_skipped := st'.last_skipped + 1,
                      spec_processed := st'.spec_processed + status' })
       else (true, { last_skipped := 0, spec_processed := 0 })) := fun _ _ => rfl
  rw [hD, hD]
  by_cases hc : MIN_RETURN_EVENTS ≤ status ∧ st.spec_processed + status < absmaxevents ∧
      st.last_skipped + 1 ≤ 1
  · rw [if_pos hc]
    refine ⟨fun _ => ⟨hc.1, hc.2.1⟩, fun _ => ?_⟩
    split
    · rename_i hcond
      have h3 : st.last_skipped + 1 + 1 ≤ 1 := hcond.2.2
      omega
    · rfl
  · rw [if_neg hc]
    exact ⟨fun h => absurd h (by simp), fun h => absurd h (by simp)⟩

/-- Witness for C6: with `absmaxevents = 100` and fresh counters, a spec
walk completing 30 events skips the wait, and the following turn (again
completing 30) executes it. -/
theorem sepoll_skip_spec_witness :
    MIN_RETURN_EVENTS ≤ 30 ∧ (0 : Nat) + 30 < 100 ∧
    (sepoll_wait_decision 100
      (sepoll_wait_decision 100 ⟨0, 0⟩ 30 false).2 30 false).1 = true := by
  have h := sepoll_skip_spec 100 ⟨0, 0⟩ 30 30
  have hskip : (sepoll_wait_decision 100 ⟨0, 0⟩ 30 false).1 = false := by decide
  exact ⟨(h.1 hskip).1, (h.1 hskip).2, h.2 hskip⟩

/-! ## C7: connect() outcome translation in tcp_connect_server -/

/-- C7.  When `tcp_connect_server` reaches its `connect()` call (valid
target, socket obtained below `maxsock`, non-blocking setup and source
binding successful), the outcome is translated as follows: success or
`EINPROGRESS`/`EALREADY`/`EISCONN` count as success — the fd is inserted in
the connecting state with write interest registered, the connect-timeout
deadline is stamped, the stream interface enters `SI_ST_CON` and
`SN_ERR_NONE` is returned; `EAGAIN`/`EADDRINUSE` release the source port,
close the fd and return `SN_ERR_RESOURCE`; `ETIMEDOUT` returns
`SN_ERR_SRVTO`; every other `connect()` error returns `SN_ERR_SRVCL` (the
three failure classes all release the port and close the fd). -/
theorem tcp_connect_server_spec (env : TcpConnectEnv) (fd : Nat)
    (htarg : env.target ≠ TargType.targ_other)
    (hsock : env.socket_fd = some fd)
    (hmax : fd < env.maxsock)
    (hfcntl : env.fcntl_ok = true)
    (hbind : env.src_bind = true → env.bind_ret = 0) :
    ((env.connect_errno = none ∨ env.connect_errno = some ConnectErrno.errInProgress ∨
      env.connect_errno = some ConnectErrno.errAlready ∨
      env.connect_errno = some ConnectErrno.errIsConn) →
      tcp_connect_server env =
        { ret := SnErr.errNone, fd_closed := false, port_released := false,
          fd_state_conn := true, ev_set_wr := true, si_st_con := true,
          exp_stamped := true }) ∧
    ((env.connect_errno = some ConnectErrno.errAgain ∨
      env.connect_errno = some ConnectErrno.errAddrInUse) →
      tcp_connect_server env = tcpFail SnErr.errResource true true) ∧
    (env.connect_errno = some ConnectErrno.errTimedOut →
      tcp_connect_server env = tcpFail SnErr.errSrvTo true true) ∧
    (env.connect_errno = some ConnectErrno.errOther →
      tcp_connect_server env = tcpFail SnErr.errSrvCl true true) := by
  have hnb : ¬ (env.src_bind = true ∧ env.bind_ret ≠ 0) := by
    intro hx
    exact hx.2 (hbind hx.1)
  have hm : ¬ env.maxsock ≤ fd := by omega
  refine ⟨?_, ?_, ?_, ?_⟩
  · rintro (hce | hce | hce | hce) <;>
      simp [tcp_connect_server, htarg, hsock, hm, hfcntl, hnb, hce]
  · rintro (hce | hce) <;>
      simp [tcp_connect_server, htarg, hsock, hm, hfcntl, hnb, hce, tcpFail]
  · intro hce
    simp [tcp_connect_server, htarg, hsock, hm, hfcntl, hnb, hce, tcpFail]
  · intro hce
    simp [tcp_connect_server, htarg, hsock, hm, hfcntl, hnb, hce, tcpFail]

/-- Witness for C7: a concrete environment for each of the four connect
outcomes, all with target = server, fd 5 below maxsock 100, successful
setup and no source binding. -/
theorem tcp_connect_server_spec_witness :
    tcp_connect_server
      { target := TargType.targ_server, socket_fd := some 5, maxsock := 100,
        fcntl_ok := true, src_bind := false, bind_ret := 0,
        connect_errno := some ConnectErrno.errInProgress } =
      { ret := SnErr.errNone, fd_closed := false, port_released := false,
        fd_state_conn := true, ev_set_wr := true, si_st_con := true,
        exp_stamped := true } ∧
    tcp_connect_server
      { target := TargType.targ_server, socket_fd := some 5, maxsock := 100,
        fcntl_ok := true, src_bind := false, bind_ret := 0,
        connect_errno := some ConnectErrno.errAgain } =
      tcpFail SnErr.errResource true true ∧
    tcp_connect_server
      { target := TargType.targ_server, socket_fd := some 5, maxsock := 100,
        fcntl_ok := true, src_bind := false, bind_ret := 0,
        connect_errno := some ConnectErrno.errTimedOut } =
      tcpFail SnErr.errSrvTo true true ∧
    tcp_connect_server
      { target := TargType.targ_server, socket_fd := some 5, maxsock := 100,
        fcntl_ok := true, src_bind := false, bind_ret := 0,
        connect_errno := some ConnectErrno.errOther } =
      tcpFail SnErr.errSrvCl true true := by
  refine ⟨?_, ?_, ?_, ?_⟩
  · exact (tcp_connect_server_spec _ 5 (by decide) rfl (by decide) rfl
      (by intro h; exact absurd h (by decide))).1 (by simp)
  · exact (tcp_connect_server_spec _ 5 (by decide) rfl (by decide) rfl
      (by intro h; exact absurd h (by decide))).2.1 (by simp)
  · exact (tcp_connect_server_spec _ 5 (by decide) rfl (by decide) rfl
      (by intro h; exact absurd h (by decide))).2.2.1 rfl
  · exact (tcp_connect_server_spec _ 5 (by decide) rfl (by decide) rfl
      (by intro h; exact absurd h (by decide))).2.2.2 rfl

/-! ## C8: the set/clear contract of both readiness engines -/

theorem sepoll_word_set_facts : ∀ e, e < 16 → ∀ dir, dir < 2 →
    (¬ ((e >>> dir) &&& FD_EV_MASK_DIR ≠ FD_EV_STOP ∧
        (e >>> dir) &&& FD_EV_MASK_DIR ≠ FD_EV_IDLE) ↔
      (((e >>> dir) &&& FD_EV_MASK_DIR == FD_EV_SPEC ||
        (e >>> dir) &&& FD_EV_MASK_DIR == FD_EV_WAIT) = false)) ∧
    (¬ ((e >>> dir) &&& FD_EV_MASK_DIR ≠ FD_EV_STOP ∧
        (e >>> dir) &&& FD_EV_MASK_DIR ≠ FD_EV_IDLE) →
      ((((e ^^^ (FD_EV_IN_SL <<< dir)) >>> dir) &&& FD_EV_MASK_DIR == FD_EV_SPEC ||
        ((e ^^^ (FD_EV_IN_SL <<< dir)) >>> dir) &&& FD_EV_MASK_DIR == FD_EV_WAIT) = true)) := by
  decide

theorem sepoll_word_clr_facts : ∀ e, e < 16 → ∀ dir, dir < 2 →
    (¬ ((e >>> dir) &&& FD_EV_MASK_DIR ≠ FD_EV_SPEC ∧
        (e >>> dir) &&& FD_EV_MASK_DIR ≠ FD_EV_WAIT) ↔
      (((e >>> dir) &&& FD_EV_MASK_DIR == FD_EV_SPEC ||
        (e >>> dir) &&& FD_EV_MASK_DIR == FD_EV_WAIT) = true)) ∧
    (¬ ((e >>> dir) &&& FD_EV_MASK_DIR ≠ FD_EV_SPEC ∧
        (e >>> dir) &&& FD_EV_MASK_DIR ≠ FD_EV_WAIT) →
      ((((e ^^^ (FD_EV_IN_SL <<< dir)) >>> dir) &&& FD_EV_MASK_DIR == FD_EV_SPEC ||
        ((e ^^^ (FD_EV_IN_SL <<< dir)) >>> dir) &&& FD_EV_MASK_DIR == FD_EV_WAIT) = false)) := by
  decide

theorem alloc_spec_entry_events (st : SpecState) (fd : Nat) :
    (alloc_spec_entry st fd).events = st.events := by
  unfold alloc_spec_entry
  split <;> rfl

theorem sepoll_fd_set_events (st : SpecState) (fd dir : Nat) :
    (sepoll_fd_set st fd dir).1.events =
      if ((st.events.getD fd 0 >>> dir) &&& FD_EV_MASK_DIR ≠ FD_EV_STOP ∧
          (st.events.getD fd 0 >>> dir) &&& FD_EV_MASK_DIR ≠ FD_EV_IDLE)
      then st.events
      else st.events.set fd (st.events.getD fd 0 ^^^ (FD_EV_IN_SL <<< dir)) := by
  unfold sepoll_fd_set
  have h1 : (if (st.events.getD fd 0 >>> dir) &&& FD_EV_MASK_DIR = FD_EV_STOP
      then st else alloc_spec_entry st fd).events = st.events := by
    split
    · rfl
    · exact alloc_spec_entry_events st fd
  split
  · rename_i h
    rw [if_pos h]
  · rename_i h
    rw [if_neg h]
    simp only [h1]

theorem sepoll_fd_set_snd (st : SpecState) (fd dir : Nat) :
    (sepoll_fd_set st fd dir).2 =
      if ((st.events.getD fd 0 >>> dir) &&& FD_EV_MASK_DIR ≠ FD_EV_STOP ∧
          (st.events.getD fd 0 >>> dir) &&& FD_EV_MASK_DIR ≠ FD_EV_IDLE)
      then false else true := by
  unfold sepoll_fd_set
  split
  · rename_i h
    rw [if_pos h]
  · rename_i h
    rw [if_neg h]

theorem sepoll_fd_clr_events (st : SpecState) (fd dir : Nat) :
    (sepoll_fd_clr st fd dir).1.events =
      if ((st.events.getD fd 0 >>> dir) &&& FD_EV_MASK_DIR ≠ FD_EV_SPEC ∧
          (st.events.getD fd 0 >>> dir) &&& FD_EV_MASK_DIR ≠ FD_EV_WAIT)
      then st.events
      else st.events.set fd (st.events.getD fd 0 ^^^ (FD_EV_IN_SL <<< dir)) := by
  unfold sepoll_fd_clr
  have h1 : (if (st.events.getD fd 0 >>> dir) &&& FD_EV_MASK_DIR = FD_EV_SPEC
      then st else alloc_spec_entry st fd).events = st.events := by
    split
    · rfl
    · exact alloc_spec_entry_events st fd
  split
  · rename_i h
    rw [if_pos h]
  · rename_i h
    rw [if_neg h]
    simp only [h1]

theorem sepoll_fd_clr_snd (st : SpecState) (fd dir : Nat) :
    (sepoll_fd_clr st fd dir).2 =
      if ((st.events.getD fd 0 >>> dir) &&& FD_EV_MASK_DIR ≠ FD_EV_SPEC ∧
          (st.events.getD fd 0 >>> dir) &&& FD_EV_MASK_DIR ≠ FD_EV_WAIT)
      then false else true := by
  unfold sepoll_fd_clr
  split
  · rename_i h
    rw [if_pos h]
  · rename_i h
    rw [if_neg h]

/-- C8.  For both readiness-engine back-ends (speculative epoll and kqueue)
and every fd and direction: `set` reports a change exactly when `is_set` was
false beforehand, after which `is_set` is true; `clear` reports a change
exactly when `is_set` was true beforehand, after which `is_set` is false.
(For the speculative engine the per-fd event word is a 4-bit field, hence
the `< 16` bound; the fd must index an allocated slot and the direction is
read or write.) -/
theorem engine_set_clr_spec :
    (∀ (st : SpecState) (fd dir : Nat), fd < st.events.length → dir < 2 →
      st.events.getD fd 0 < 16 →
      ((sepoll_fd_set st fd dir).2 = !(sepoll_fd_is_set st fd dir)) ∧
      sepoll_fd_is_set (sepoll_fd_set st fd dir).1 fd dir = true ∧
      ((sepoll_fd_clr st fd dir).2 = sepoll_fd_is_set st fd dir) ∧
      sepoll_fd_is_set (sepoll_fd_clr st fd dir).1 fd dir = false) ∧
    (∀ (st : KqueueState) (fd dir : Nat), fd < (kqueue_evts st dir).length →
      ((kqueue_fd_set st fd dir).2 = !(kqueue_fd_is_set st fd dir)) ∧
      kqueue_fd_is_set (kqueue_fd_set st fd dir).1 fd dir = true ∧
      ((kqueue_fd_clr st fd dir).2 = kqueue_fd_is_set st fd dir) ∧
      kqueue_fd_is_set (kqueue_fd_clr st fd dir).1 fd dir = false) := by
  constructor
  · intro st fd dir hfd hdir he
    obtain ⟨hset1, hset2⟩ := sepoll_word_set_facts (st.events.getD fd 0) he dir hdir
    obtain ⟨hclr1, hclr2⟩ := sepoll_word_clr_facts (st.events.getD fd 0) he dir hdir
    have hisset : sepoll_fd_is_set st fd dir =
        ((st.events.getD fd 0 >>> dir) &&& FD_EV_MASK_DIR == FD_EV_SPEC ||
         (st.events.getD fd 0 >>> dir) &&& FD_EV_MASK_DIR == FD_EV_WAIT) := rfl
    by_cases hs : ((st.events.getD fd 0 >>> dir) &&& FD_EV_MASK_DIR ≠ FD_EV_STOP ∧
        (st.events.getD fd 0 >>> dir) &&& FD_EV_MASK_DIR ≠ FD_EV_IDLE)
    all_goals by_cases hc : ((st.events.getD fd 0 >>> dir) &&& FD_EV_MASK_DIR ≠ FD_EV_SPEC ∧
        (st.events.getD fd 0 >>> dir) &&& FD_EV_MASK_DIR ≠ FD_EV_WAIT)
    -- hs: SPEC or WAIT; hc: IDLE or STOP.  hs ∧ hc is impossible only by the
    -- word facts; treat each combination directly.
    · -- hs and hc: word value is simultaneously not {STOP, IDLE} and not
      -- {SPEC, WAIT}: the masked value has only bits 0 and 2, contradiction.
      exfalso
      have h4 : ∀ x : Nat, x &&& 5 = 0 ∨ x &&& 5 = 1 ∨ x &&& 5 = 4 ∨ x &&& 5 = 5 := by
        intro x
        have hle : x &&& 5 ≤ 5 := Nat.and_le_right
        have hidem : (x &&& 5) &&& 5 = x &&& 5 := by
          rw [Nat.and_assoc]
          norm_num
        revert hidem
        interval_cases h : (x &&& 5) <;> decide
      have h5 := h4 (st.events.getD fd 0 >>> dir)
      have hmask : FD_EV_MASK_DIR = 5 := rfl
      rw [hmask] at hs hc
      have hstop : FD_EV_STOP = 5 := rfl
      have hidle : FD_EV_IDLE = 0 := rfl
      have hspec : FD_EV_SPEC = 1 := rfl
      have hwait : FD_EV_WAIT = 4 := rfl
      rw [hstop, hidle] at hs
      rw [hspec, hwait] at hc
      rcases h5 with h5 | h5 | h5 | h5
      · exact hs.2 h5
      · exact hc.1 h5
      · exact hc.2 h5
      · exact hs.1 h5
    · -- hs, ¬hc: the word is SPEC or WAIT: set is a no-op reporting false,
      -- clear flips it off.
      have hw : sepoll_fd_is_set st fd dir = true := by
        rw [hisset]; exact hclr1.mp hc
      refine ⟨?_, ?_, ?_, ?_⟩
      · rw [sepoll_fd_set_snd, if_pos hs, hw]; rfl
      · have hev : (sepoll_fd_set st fd dir).1.events = st.events := by
          rw [sepoll_fd_set_events, if_pos hs]
        show ((((sepoll_fd_set st fd dir).1.events.getD fd 0) >>> dir) &&& FD_EV_MASK_DIR
            == FD_EV_SPEC || _ == FD_EV_WAIT) = true
        rw [hev]
        rw [hisset] at hw
        exact hw
      · rw [sepoll_fd_clr_snd, if_neg hc, hw]
      · have hev : (sepoll_fd_clr st fd dir).1.events =
            st.events.set fd (st.events.getD fd 0 ^^^ (FD_EV_IN_SL <<< dir)) := by
          rw [sepoll_fd_clr_events, if_neg hc]
        show ((((sepoll_fd_clr st fd dir).1.events.getD fd 0) >>> dir) &&& FD_EV_MASK_DIR
            == FD_EV_SPEC || _ == FD_EV_WAIT) = false
        rw [hev, getD_set_self _ _ _ _ hfd]
        exact hclr2 hc
    · -- ¬hs, hc: the word is IDLE or STOP: set flips it on, clear is a no-op.
      have hw : sepoll_fd_is_set st fd dir = false := by
        rw [hisset]; exact hset1.mp hs
      refine ⟨?_, ?_, ?_, ?_⟩
      · rw [sepoll_fd_set_snd, if_neg hs, hw]; rfl
      · have hev : (sepoll_fd_set st fd dir).1.events =
            st.events.set fd (st.events.getD fd 0 ^^^ (FD_EV_IN_SL <<< dir)) := by
          rw [sepoll_fd_set_events, if_neg hs]
        show ((((sepoll_fd_set st fd dir).1.events.getD fd 0) >>> dir) &&& FD_EV_MASK_DIR
            == FD_EV_SPEC || _ == FD_EV_WAIT) = true
        rw [hev, getD_set_self _ _ _ _ hfd]
        exact hset2 hs
      · rw [sepoll_fd_clr_snd, if_pos hc, hw]
      · have hev : (sepoll_fd_clr st fd dir).1.events = st.events := by
          rw [sepoll_fd_clr_events, if_pos hc]
        show ((((sepoll_fd_clr st fd dir).1.events.getD fd 0) >>> dir) &&& FD_EV_MASK_DIR
            == FD_EV_SPEC || _ == FD_EV_WAIT) = false
        rw [hev]
        rw [hisset] at hw
        exact hw
    · -- ¬hs, ¬hc: impossible: the word would have to be in {SPEC, WAIT} (from
      -- ¬hc via the iff) and in {STOP, IDLE} (from ¬hs) at once.
      exfalso
      have h1 := hclr1.mp hc
      have h2 := hset1.mp hs
      rw [h1] at h2
      exact absurd h2 (by decide)
  · intro st fd dir hlen
    by_cases hd : dir = DIR_RD
    · subst hd
      have hlen1 : fd < st.fd_evts.1.length := hlen
      have hget : kqueue_fd_is_set st fd DIR_RD = st.fd_evts.1.getD fd false := rfl
      have hset : kqueue_fd_set st fd DIR_RD =
          (if st.fd_evts.1.getD fd false then (st, false)
           else ({ fd_evts := (st.fd_evts.1.set fd true, st.fd_evts.2) }, true)) := rfl
      have hclr : kqueue_fd_clr st fd DIR_RD =
          (if !(st.fd_evts.1.getD fd false) then (st, false)
           else ({ fd_evts := (st.fd_evts.1.set fd false, st.fd_evts.2) }, true)) := rfl
      by_cases hb : st.fd_evts.1.getD fd false
      · refine ⟨?_, ?_, ?_, ?_⟩
        · rw [hset, if_pos hb, hget, hb]; rfl
        · rw [hset, if_pos hb]; exact hget.trans hb
        · rw [hclr, hb, hget, hb]; rfl
        · rw [hclr, hb]
          show ({ fd_evts := (st.fd_evts.1.set fd false, st.fd_evts.2) } :
              KqueueState).fd_evts.1.getD fd false = false
          exact getD_set_self st.fd_evts.1 fd false false hlen1
      · rw [Bool.not_eq_true] at hb
        refine ⟨?_, ?_, ?_, ?_⟩
        · rw [hset, hb, hget, hb]; rfl
        · rw [hset, hb]
          show ({ fd_evts := (st.fd_evts.1.set fd true, st.fd_evts.2) } :
              KqueueState).fd_evts.1.getD fd false = true
          exact getD_set_self st.fd_evts.1 fd true false hlen1
        · rw [hclr, hb, hget, hb]; rfl
        · rw [hclr, hb]
          show st.fd_evts.1.getD fd false = false
          exact hb
    · have hlen2 : fd < st.fd_evts.2.length := by
        unfold kqueue_evts at hlen
        rwa [if_neg hd] at hlen
      have hget : kqueue_fd_is_set st fd dir = st.fd_evts.2.getD fd false := by
        unfold kqueue_fd_is_set kqueue_evts
        rw [if_neg hd]
      have hset : kqueue_fd_set st fd dir =
          (if st.fd_evts.2.getD fd false then (st, false)
           else ({ fd_evts := (st.fd_evts.1, st.fd_evts.2.set fd true) }, true)) := by
        unfold kqueue_fd_set kqueue_evts
        simp only [if_neg hd]
      have hclr : kqueue_fd_clr st fd dir =
          (if !(st.fd_evts.2.getD fd false) then (st, false)
           else ({ fd_evts := (st.fd_evts.1, st.fd_evts.2.set fd false) }, true)) := by
        unfold kqueue_fd_clr kqueue_evts
        simp only [if_neg hd]
      by_cases hb : st.fd_evts.2.getD fd false
      · refine ⟨?_, ?_, ?_, ?_⟩
        · rw [hset, if_pos hb, hget, hb]; rfl
        · rw [hset, if_pos hb]; exact hget.trans hb
        · rw [hclr, hb, hget, hb]; rfl
        · rw [hclr, hb]
          show kqueue_fd_is_set
              ({ fd_evts := (st.fd_evts.1, st.fd_evts.2.set fd false) } : KqueueState) fd dir = false
          unfold kqueue_fd_is_set kqueue_evts
          rw [if_neg hd]
          exact getD_set_self st.fd_evts.2 fd false false hlen2
      · rw [Bool.not_eq_true] at hb
        refine ⟨?_, ?_, ?_, ?_⟩
        · rw [hset, hb, hget, hb]; rfl
        · rw [hset, hb]
          show kqueue_fd_is_set
              ({ fd_evts := (st.fd_evts.1, st.fd_evts.2.set fd true) } : KqueueState) fd dir = true
          unfold kqueue_fd_is_set kqueue_evts
          rw [if_neg hd]
          exact getD_set_self st.fd_evts.2 fd true false hlen2
        · rw [hclr, hb, hget, hb]; rfl
        · rw [hclr, hb]
          show kqueue_fd_is_set st fd dir = false
          exact hget.trans hb

/-- Witness for C8: concrete instances of the contract on both engines — a
clear on an fd in SPEC-read state reports the change, a set from idle leaves
the fd watched, a kqueue set on a clear bit reports the change, and a kqueue
clear on dir 1 leaves the bit unwatched. -/
theorem engine_set_clr_spec_witness :
    (sepoll_fd_clr { events := [1], backref := [1], slist := [0] } 0 0).2 =
      sepoll_fd_is_set { events := [1], backref := [1], slist := [0] } 0 0 ∧
    sepoll_fd_is_set
      (sepoll_fd_set { events := [0], backref := [0], slist := [] } 0 0).1 0 0 = true ∧
    (kqueue_fd_set { fd_evts := ([false], [false]) } 0 0).2 =
      !(kqueue_fd_is_set { fd_evts := ([false], [false]) } 0 0) ∧
    kqueue_fd_is_set (kqueue_fd_clr { fd_evts := ([false], [true]) } 0 1).1 0 1 = false := by
  refine ⟨?_, ?_, ?_, ?_⟩
  · exact (engine_set_clr_spec.1 { events := [1], backref := [1], slist := [0] } 0 0
      (by decide) (by decide) (by decide)).2.2.1
  · exact (engine_set_clr_spec.1 { events := [0], backref := [0], slist := [] } 0 0
      (by decide) (by decide) (by decide)).2.1
  · exact (engine_set_clr_spec.2 { fd_evts := ([false], [false]) } 0 0 (by decide)).1
  · exact (engine_set_clr_spec.2 { fd_evts := ([false], [true]) } 0 1 (by decide)).2.2.2

/-! ## C10: the fbck short-circuit of both selectors -/

/-- C10.  In both `fwlc_get_next_server` and `fwrr_get_next_server`, as soon
as no active server is usable (`srv_act == 0`) and the first-backup pointer
is set, that pointer is returned at once — no saturation check and no
comparison with the caller-supplied avoid server takes place, whatever
`srvtoavoid` is and whatever the trees contain. -/
theorem fbck_immediate_spec (pl : FwlcBackend) (pr : FwrrBackend) (fuel : Nat)
    (avoid : Option Nat) (f g : Nat)
    (h1 : pl.srv_act = 0) (h2 : pl.fbck = some f)
    (h3 : pr.srv_act = 0) (h4 : pr.fbck = some g) :
    fwlc_get_next_server pl avoid = some f ∧
    (fwrr_get_next_server fuel pr avoid).2 = some g := by
  constructor
  · unfold fwlc_get_next_server
    rw [h1, h2]
    simp
  · unfold fwrr_get_next_server
    rw [h3, h4]
    simp

/-- Witness for C10: both backends hold a saturated first backup (id 7,
`maxconn = 1`, `nbpend = 1`) which is also the avoided server, and it is
returned anyway. -/
theorem fbck_immediate_spec_witness :
    fwlc_get_next_server
      { servers := [{ id := 7, state := ⟨true, false, false, true⟩,
                      prev_state := ⟨true, false, false, true⟩,
                      eweight := 16, prev_eweight := 16, uweight := 1, served := 5,
                      nbpend := 1, maxconn := 1, dyn_maxconn := 1,
                      lb_tree := some TreeRef.fwlcBck, lb_node_key := 0,
                      lpos := 0, npos := 0, rweight := 0 }],
        act := [], bck := [], tot_wact := 0, tot_wbck := 16,
        srv_act := 0, srv_bck := 1, fbck := some 7 } (some 7) = some 7 ∧
    (fwrr_get_next_server 3
      { act := { curr := [], t0 := [], t1 := [], init_is_t0 := true,
                 curr_pos := 0, curr_weight := 0, next_weight := 0 },
        bck := { curr := [], t0 := [], t1 := [], init_is_t0 := true,
                 curr_pos := 0, curr_weight := 0, next_weight := 16 },
        tot_wact := 0, tot_wbck := 16, srv_act := 0, srv_bck := 1,
        fbck := some 7 } (some 7)).2 = some 7 := by
  exact fbck_immediate_spec _ _ 3 (some 7) 7 7 rfl rfl rfl rfl

/-! ## C3: the FWLC sort key -/

theorem mem_eb32_insert (x : Srv) (l : List Srv) : x ∈ eb32_insert x l := by
  induction l with
  | nil => exact List.mem_singleton.mpr rfl
  | cons s t ih =>
    unfold eb32_insert
    split
    · exact List.mem_cons_self x (s :: t)
    · exact List.mem_cons_of_mem s ih

theorem find_updSrvList (l : List Srv) (sid : Nat) (f : Srv → Srv)
    (hid : ∀ s, (f s).id = s.id) :
    (updSrvList sid f l).find? (fun s => s.id == sid) =
      (l.find? (fun s => s.id == sid)).map f := by
  induction l with
  | nil => rfl
  | cons a t ih =>
    unfold updSrvList at ih ⊢
    by_cases h : a.id = sid
    · rw [List.map_cons, if_pos h,
          List.find?_cons_of_pos _ (by simp [hid, h]),
          List.find?_cons_of_pos _ (by simp [h])]
      rfl
    · rw [List.map_cons, if_neg h,
          List.find?_cons_of_neg _ (by simp [h]),
          List.find?_cons_of_neg _ (by simp [h])]
      exact ih

theorem findSrv_updSrv (p : FwlcBackend) (sid : Nat) (f : Srv → Srv)
    (hid : ∀ s, (f s).id = s.id) :
    (p.updSrv sid f).findSrv sid = (p.findSrv sid).map f := by
  unfold FwlcBackend.updSrv FwlcBackend.findSrv
  exact find_updSrvList p.servers sid f hid

/-- C3.  For every usable server with `eweight > 0` that `fwlc_queue_srv`
queues into a weighted-least-connections tree, the key stored in its tree
node — both in the record as seen through the server list and in the node
inserted into the designated tree — is `served * SRV_EWGHT_MAX / eweight`
(multiplication first, then integer division). -/
theorem fwlc_queue_key_spec (p : FwlcBackend) (sid : Nat) (srv : Srv)
    (hfind : p.findSrv sid = some srv)
    (husable : srv_is_usable srv.state srv.eweight = true)
    (hw : 0 < srv.eweight)
    (htree : srv.lb_tree = some TreeRef.fwlcAct ∨ srv.lb_tree = some TreeRef.fwlcBck) :
    (fwlc_queue_srv p sid).findSrv sid =
      some { srv with lb_node_key := srv.served * SRV_EWGHT_MAX / srv.eweight } ∧
    { srv with lb_node_key := srv.served * SRV_EWGHT_MAX / srv.eweight } ∈
      (if srv.lb_tree = some TreeRef.fwlcAct
       then (fwlc_queue_srv p sid).act else (fwlc_queue_srv p sid).bck) := by
  have hkey : fwlc_key srv = srv.served * SRV_EWGHT_MAX / srv.eweight := rfl
  have hid : ∀ s : Srv, ({ s with lb_node_key := fwlc_key srv } : Srv).id = s.id :=
    fun s => rfl
  rcases htree with ht | ht
  · have hq : fwlc_queue_srv p sid =
        { p.updSrv sid (fun s => { s with lb_node_key := fwlc_key srv }) with
          act := eb32_insert { srv with lb_node_key := fwlc_key srv }
            (p.updSrv sid (fun s => { s with lb_node_key := fwlc_key srv })).act } := by
      simp only [fwlc_queue_srv, hfind, ht]
    rw [hq, ht]
    constructor
    · show (p.updSrv sid (fun s => { s with lb_node_key := fwlc_key srv })).findSrv sid = _
      rw [findSrv_updSrv p sid _ hid, hfind]
      simp [hkey, ht]
    · rw [if_pos rfl]
      exact mem_eb32_insert _ _
  · have hnact : srv.lb_tree ≠ some TreeRef.fwlcAct := by
      rw [ht]; intro hx; cases hx
    have hq : fwlc_queue_srv p sid =
        { p.updSrv sid (fun s => { s with lb_node_key := fwlc_key srv }) with
          bck := eb32_insert { srv with lb_node_key := fwlc_key srv }
            (p.updSrv sid (fun s => { s with lb_node_key := fwlc_key srv })).bck } := by
      simp only [fwlc_queue_srv, hfind, ht]
    rw [hq]
    constructor
    · show (p.updSrv sid (fun s => { s with lb_node_key := fwlc_key srv })).findSrv sid = _
      rw [findSrv_updSrv p sid _ hid, hfind]
      simp [hkey, ht]
    · rw [if_neg hnact]
      exact mem_eb32_insert _ _

/-- Witness for C3: a usable server (id 1, `eweight = 16`, `served = 3`)
queued into the active tree receives the key `3 * 4080 / 16 = 765`. -/
theorem fwlc_queue_key_spec_witness :
    { id := 1, state := ⟨true, false, false, false⟩,
      prev_state := ⟨true, false, false, false⟩,
      eweight := 16, prev_eweight := 16, uweight := 1, served := 3, nbpend := 0,
      maxconn := 0, dyn_maxconn := 0, lb_tree := some TreeRef.fwlcAct,
      lb_node_key := 765, lpos := 0, npos := 0, rweight := 0 } ∈
    (fwlc_queue_srv
      { servers := [{ id := 1, state := ⟨true, false, false, false⟩,
                      prev_state := ⟨true, false, false, false⟩,
                      eweight := 16, prev_eweight := 16, uweight := 1, served := 3,
                      nbpend := 0, maxconn := 0, dyn_maxconn := 0,
                      lb_tree := some TreeRef.fwlcAct, lb_node_key := 0,
                      lpos := 0, npos := 0, rweight := 0 }],
        act := [], bck := [], tot_wact := 16, tot_wbck := 0,
        srv_act := 1, srv_bck := 0, fbck := none } 1).act := by
  have h := fwlc_queue_key_spec
    { servers := [{ id := 1, state := ⟨true, false, false, false⟩,
                    prev_state := ⟨true, false, false, false⟩,
                    eweight := 16, prev_eweight := 16, uweight := 1, served := 3,
                    nbpend := 0, maxconn := 0, dyn_maxconn := 0,
                    lb_tree := some TreeRef.fwlcAct, lb_node_key := 0,
                    lpos := 0, npos := 0, rweight := 0 }],
      act := [], bck := [], tot_wact := 16, tot_wbck := 0,
      srv_act := 1, srv_bck := 0, fbck := none } 1
    { id := 1, state := ⟨true, false, false, false⟩,
      prev_state := ⟨true, false, false, false⟩,
      eweight := 16, prev_eweight := 16, uweight := 1, served := 3, nbpend := 0,
      maxconn := 0, dyn_maxconn := 0, lb_tree := some TreeRef.fwlcAct,
      lb_node_key := 0, lpos := 0, npos := 0, rweight := 0 }
    rfl (by decide) (by decide) (Or.inl rfl)
  simpa using h.2

/-! ## C9: take-connection then drop-connection restores the key -/

theorem findSrv_dequeue (p : FwlcBackend) (sid sid2 : Nat) :
    (fwlc_dequeue_srv p sid2).findSrv sid = p.findSrv sid := rfl

theorem findSrv_queue (q : FwlcBackend) (sid : Nat) (s : Srv)
    (hf : q.findSrv sid = some s) :
    (fwlc_queue_srv q sid).findSrv sid = some { s with lb_node_key := fwlc_key s } := by
  have base : (q.updSrv sid (fun x => { x with lb_node_key := fwlc_key s })).findSrv sid =
      some { s with lb_node_key := fwlc_key s } := by
    rw [findSrv_updSrv q sid (fun x => { x with lb_node_key := fwlc_key s }) (fun _ => rfl), hf]
    rfl
  cases htr : s.lb_tree with
  | none =>
    rw [htr] at base
    simp only [fwlc_queue_srv, hf, htr]
    exact base
  | some tr =>
    rw [htr] at base
    cases tr <;> simp only [fwlc_queue_srv, hf, htr] <;> exact base

theorem findSrv_reposition (p : FwlcBackend) (sid : Nat) (s : Srv)
    (hf : p.findSrv sid = some s) (ht : s.lb_tree ≠ none) :
    (fwlc_srv_reposition p sid).findSrv sid = some { s with lb_node_key := fwlc_key s } := by
  have hrepo : fwlc_srv_reposition p sid = fwlc_queue_srv (fwlc_dequeue_srv p sid) sid := by
    unfold fwlc_srv_reposition
    rw [hf]
    simp only [if_neg ht]
  rw [hrepo]
  exact findSrv_queue _ _ _ ((findSrv_dequeue p sid sid).trans hf)

/-- C9.  For a server present in a weighted-least-connections tree and
correctly keyed, running the take-connection hook (`fwlc_srv_reposition`,
after the caller increments `served`) and then the drop-connection hook
(the same function, after the caller decrements `served` back) restores the
server's record — in particular its sort key — to its value before the pair
of calls. -/
theorem fwlc_reposition_round_trip (p : FwlcBackend) (sid : Nat) (srv : Srv)
    (hfind : p.findSrv sid = some srv)
    (htree : srv.lb_tree = some TreeRef.fwlcAct ∨ srv.lb_tree = some TreeRef.fwlcBck)
    (hkey : srv.lb_node_key = fwlc_key srv) :
    (fwlc_srv_reposition
      ((fwlc_srv_reposition
          (p.updSrv sid (fun s => { s with served := s.served + 1 })) sid).updSrv
        sid (fun s => { s with served := s.served - 1 })) sid).findSrv sid = some srv := by
  have hne : srv.lb_tree ≠ none := by
    rcases htree with h | h <;> rw [h] <;> exact fun hx => Option.noConfusion hx
  have h1 : (p.updSrv sid (fun s => { s with served := s.served + 1 })).findSrv sid =
      some { srv with served := srv.served + 1 } := by
    rw [findSrv_updSrv p sid (fun s => { s with served := s.served + 1 }) (fun _ => rfl),
        hfind]
    rfl
  have h2 := findSrv_reposition _ sid _ h1 (by exact hne)
  have h3 : ((fwlc_srv_reposition
      (p.updSrv sid (fun s => { s with served := s.served + 1 })) sid).updSrv
        sid (fun s => { s with served := s.served - 1 })).findSrv sid =
      some { srv with served := srv.served + 1 - 1,
                      lb_node_key := fwlc_key { srv with served := srv.served + 1 } } := by
    rw [findSrv_updSrv _ sid (fun s => { s with served := s.served - 1 }) (fun _ => rfl),
        h2]
    rfl
  have h4 := findSrv_reposition _ sid _ h3 (by exact hne)
  rw [h4]
  have hkey2 : srv.lb_node_key = srv.served * SRV_EWGHT_MAX / srv.eweight := hkey
  simp [fwlc_key]
  rw [← hkey2]

/-- Witness for C9: a server (id 2, `eweight = 16`, `served = 4`, key
`4 * 4080 / 16 = 1020`) queued in the active tree is exactly restored by a
take/drop pair. -/
theorem fwlc_reposition_round_trip_witness :
    (fwlc_srv_reposition
      ((fwlc_srv_reposition
          (FwlcBackend.updSrv
            { servers := [{ id := 2, state := ⟨true, false, false, false⟩,
                            prev_state := ⟨true, false, false, false⟩,
                            eweight := 16, prev_eweight := 16, uweight := 1, served := 4,
                            nbpend := 0, maxconn := 0, dyn_maxconn := 0,
                            lb_tree := some TreeRef.fwlcAct, lb_node_key := 1020,
                            lpos := 0, npos := 0, rweight := 0 }],
              act := [{ id := 2, state := ⟨true, false, false, false⟩,
                        prev_state := ⟨true, false, false, false⟩,
                        eweight := 16, prev_eweight := 16, uweight := 1, served := 4,
                        nbpend := 0, maxconn := 0, dyn_maxconn := 0,
                        lb_tree := some TreeRef.fwlcAct, lb_node_key := 1020,
                        lpos := 0, npos := 0, rweight := 0 }],
              bck := [], tot_wact := 16, tot_wbck := 0,
              srv_act := 1, srv_bck := 0, fbck := none } 2
            (fun s => { s with served := s.served + 1 })) 2).updSrv
        2 (fun s => { s with served := s.served - 1 })) 2).findSrv 2 =
      some { id := 2, state := ⟨true, false, false, false⟩,
             prev_state := ⟨true, false, false, false⟩,
             eweight := 16, prev_eweight := 16, uweight := 1, served := 4,
             nbpend := 0, maxconn := 0, dyn_maxconn := 0,
             lb_tree := some TreeRef.fwlcAct, lb_node_key := 1020,
             lpos := 0, npos := 0, rweight := 0 } := by
  exact fwlc_reposition_round_trip
    { servers := [{ id := 2, state := ⟨true, false, false, false⟩,
                    prev_state := ⟨true, false, false, false⟩,
                    eweight := 16, prev_eweight := 16, uweight := 1, served := 4,
                    nbpend := 0, maxconn := 0, dyn_maxconn := 0,
                    lb_tree := some TreeRef.fwlcAct, lb_node_key := 1020,
                    lpos := 0, npos := 0, rweight := 0 }],
      act := [{ id := 2, state := ⟨true, false, false, false⟩,
                prev_state := ⟨true, false, false, false⟩,
                eweight := 16, prev_eweight := 16, uweight := 1, served := 4,
                nbpend := 0, maxconn := 0, dyn_maxconn := 0,
                lb_tree := some TreeRef.fwlcAct, lb_node_key := 1020,
                lpos := 0, npos := 0, rweight := 0 }],
      bck := [], tot_wact := 16, tot_wbck := 0,
      srv_act := 1, srv_bck := 0, fbck := none } 2
    { id := 2, state := ⟨true, false, false, false⟩,
      prev_state := ⟨true, false, false, false⟩,
      eweight := 16, prev_eweight := 16, uweight := 1, served := 4,
      nbpend := 0, maxconn := 0, dyn_maxconn := 0,
      lb_tree := some TreeRef.fwlcAct, lb_node_key := 1020,
      lpos := 0, npos := 0, rweight := 0 }
    rfl (Or.inl rfl) (by decide)

/-! ## C1: precedence and leftmost choice of fwlc_get_next_server -/

theorem fwlc_walk_none (t : List Srv) :
    fwlc_walk t none none = t.find? (fun u => srv_has_slot u) := by
  induction t with
  | nil => rfl
  | cons a t ih =>
    unfold fwlc_walk
    by_cases ha : srv_has_slot a
    · rw [if_pos ha, List.find?_cons_of_pos _ ha]
      simp
    · rw [if_neg ha, List.find?_cons_of_neg _ (by simpa using ha)]
      exact ih

theorem find_slot_lowest (t : List Srv) (hs : treeSorted t) (s : Srv)
    (hf : t.find? (fun u => srv_has_slot u) = some s) :
    s ∈ t ∧ srv_has_slot s = true ∧
      ∀ u ∈ t, srv_has_slot u = true → s.lb_node_key ≤ u.lb_node_key := by
  induction t with
  | nil => cases hf
  | cons a t ih =>
    rw [treeSorted, List.pairwise_cons] at hs
    by_cases ha : srv_has_slot a
    · rw [List.find?_cons_of_pos _ ha] at hf
      have has : a = s := by injection hf
      subst has
      refine ⟨List.mem_cons_self a t, ha, ?_⟩
      intro u hu _
      rcases List.mem_cons.mp hu with h | h
      · subst h; exact le_refl _
      · exact hs.1 u h
    · rw [List.find?_cons_of_neg _ (by simpa using ha)] at hf
      obtain ⟨hmem, hslot, hmin⟩ := ih hs.2 hf
      refine ⟨List.mem_cons_of_mem a hmem, hslot, ?_⟩
      intro u hu huslot
      rcases List.mem_cons.mp hu with h | h
      · subst h; exact absurd huslot (by simpa using ha)
      · exact hmin u h huslot

theorem find_slot_none (t : List Srv)
    (hf : t.find? (fun u => srv_has_slot u) = none) :
    ∀ u ∈ t, srv_has_slot u = false := by
  intro u hu
  have := List.find?_eq_none.mp hf u hu
  simpa using this

theorem walk_lowestFree (t : List Srv) (hs : treeSorted t) :
    lowestFree t ((fwlc_walk t none none).map (fun s => s.id)) := by
  rw [fwlc_walk_none]
  cases hf : t.find? (fun u => srv_has_slot u) with
  | none =>
    exact find_slot_none t hf
  | some s =>
    obtain ⟨hmem, hslot, hmin⟩ := find_slot_lowest t hs s hf
    exact ⟨s, hmem, rfl, hslot, hmin⟩

/-- C1.  `fwlc_get_next_server`, called with no avoid hint, obeys the
precedence the specification gives: with any usable active server
(`srv_act ≠ 0`) it yields a lowest-key free-slot server of the active tree
(or nothing when every queued active server is saturated); otherwise, with
the first-backup pointer set, it yields that pointer; otherwise, with any
usable backup server, it yields a lowest-key free-slot server of the backup
tree; otherwise it yields nothing.  The trees are assumed to be in key
order, which every tree in this embedding is by construction. -/
theorem fwlc_get_next_server_spec (p : FwlcBackend)
    (hsa : treeSorted p.act) (hsb : treeSorted p.bck) :
    (p.srv_act ≠ 0 → lowestFree p.act (fwlc_get_next_server p none)) ∧
    (p.srv_act = 0 → p.fbck.isSome → fwlc_get_next_server p none = p.fbck) ∧
    (p.srv_act = 0 → p.fbck = none → p.srv_bck ≠ 0 →
      lowestFree p.bck (fwlc_get_next_server p none)) ∧
    (p.srv_act = 0 → p.fbck = none → p.srv_bck = 0 →
      fwlc_get_next_server p none = none) := by
  refine ⟨?_, ?_, ?_, ?_⟩
  · intro ha
    unfold fwlc_get_next_server
    rw [if_pos ha]
    exact walk_lowestFree p.act hsa
  · intro ha hf
    unfold fwlc_get_next_server
    rw [if_neg (by simp [ha]), if_pos hf]
  · intro ha hf hb
    unfold fwlc_get_next_server
    rw [if_neg (by simp [ha]), if_neg (by simp [hf]), if_pos hb]
    exact walk_lowestFree p.bck hsb
  · intro ha hf hb
    unfold fwlc_get_next_server
    rw [if_neg (by simp [ha]), if_neg (by simp [hf]), if_neg (by simp [hb])]

/-- Witness for C1: two active servers, the leftmost (key 0) saturated and
the next (key 10) free; the selector must return a lowest-key free server
of that tree. -/
theorem fwlc_get_next_server_spec_witness :
    lowestFree
      [{ id := 1, state := ⟨true, false, false, false⟩,
         prev_state := ⟨true, false, false, false⟩,
         eweight := 16, prev_eweight := 16, uweight := 1, served := 2, nbpend := 1,
         maxconn := 1, dyn_maxconn := 1, lb_tree := some TreeRef.fwlcAct,
         lb_node_key := 0, lpos := 0, npos := 0, rweight := 0 },
       { id := 2, state := ⟨true, false, false, false⟩,
         prev_state := ⟨true, false, false, false⟩,
         eweight := 16, prev_eweight := 16, uweight := 1, served := 0, nbpend := 0,
         maxconn := 0, dyn_maxconn := 0, lb_tree := some TreeRef.fwlcAct,
         lb_node_key := 10, lpos := 0, npos := 0, rweight := 0 }]
      (fwlc_get_next_server
        { servers := [], act :=
            [{ id := 1, state := ⟨true, false, false, false⟩,
               prev_state := ⟨true, false, false, false⟩,
               eweight := 16, prev_eweight := 16, uweight := 1, served := 2, nbpend := 1,
               maxconn := 1, dyn_maxconn := 1, lb_tree := some TreeRef.fwlcAct,
               lb_node_key := 0, lpos := 0, npos := 0, rweight := 0 },
             { id := 2, state := ⟨true, false, false, false⟩,
               prev_state := ⟨true, false, false, false⟩,
               eweight := 16, prev_eweight := 16, uweight := 1, served := 0, nbpend := 0,
               maxconn := 0, dyn_maxconn := 0, lb_tree := some TreeRef.fwlcAct,
               lb_node_key := 10, lpos := 0, npos := 0, rweight := 0 }],
          bck := [], tot_wact := 32, tot_wbck := 0,
          srv_act := 2, srv_bck := 0, fbck := none } none) := by
  exact (fwlc_get_next_server_spec
    { servers := [], act :=
        [{ id := 1, state := ⟨true, false, false, false⟩,
           prev_state := ⟨true, false, false, false⟩,
           eweight := 16, prev_eweight := 16, uweight := 1, served := 2, nbpend := 1,
           maxconn := 1, dyn_maxconn := 1, lb_tree := some TreeRef.fwlcAct,
           lb_node_key := 0, lpos := 0, npos := 0, rweight := 0 },
         { id := 2, state := ⟨true, false, false, false⟩,
           prev_state := ⟨true, false, false, false⟩,
           eweight := 16, prev_eweight := 16, uweight := 1, served := 0, nbpend := 0,
           maxconn := 0, dyn_maxconn := 0, lb_tree := some TreeRef.fwlcAct,
           lb_node_key := 10, lpos := 0, npos := 0, rweight := 0 }],
      bck := [], tot_wact := 32, tot_wbck := 0,
      srv_act := 2, srv_bck := 0, fbck := none }
    (by unfold treeSorted; decide) (by unfold treeSorted; decide)).1 (by decide)

/-! ## C2: the status-down bookkeeping of the FWLC balancer -/

theorem actWeight_rest (l : List Srv)
    (h : ∀ s ∈ l, s.state = s.prev_state ∧ s.eweight = s.prev_eweight) :
    usableActWeightPrev l = usableActWeight l := by
  induction l with
  | nil => rfl
  | cons a t ih =>
    obtain ⟨h1, h2⟩ := h a (List.mem_cons_self a t)
    unfold usableActWeightPrev usableActWeight
    simp only [List.map_cons, List.sum_cons]
    rw [← h1, ← h2]
    have := ih (fun s hs => h s (List.mem_cons_of_mem a hs))
    unfold usableActWeightPrev usableActWeight at this
    rw [this]

theorem bckWeight_rest (l : List Srv)
    (h : ∀ s ∈ l, s.state = s.prev_state ∧ s.eweight = s.prev_eweight) :
    usableBckWeightPrev l = usableBckWeight l := by
  induction l with
  | nil => rfl
  | cons a t ih =>
    obtain ⟨h1, h2⟩ := h a (List.mem_cons_self a t)
    unfold usableBckWeightPrev usableBckWeight
    simp only [List.map_cons, List.sum_cons]
    rw [← h1, ← h2]
    have := ih (fun s hs => h s (List.mem_cons_of_mem a hs))
    unfold usableBckWeightPrev usableBckWeight at this
    rw [this]

theorem count_zero_rest (l : List Srv) (sid : Nat)
    (hc : (l.map (fun s => s.id)).count sid = 0) :
    ∀ s ∈ l, s.id ≠ sid := by
  intro s hs he
  have hmem : sid ∈ l.map (fun s => s.id) := List.mem_map.mpr ⟨s, hs, he⟩
  rw [List.count_eq_zero] at hc
  exact hc hmem

theorem actWeightPrev_split (l : List Srv) (sid : Nat) (srv : Srv) (hsid : srv.id = sid)
    (hrest : ∀ s ∈ l, s.id ≠ sid → s.state = s.prev_state ∧ s.eweight = s.prev_eweight)
    (huni : ∀ s ∈ l, s.id = sid → s = srv)
    (hcount : (l.map (fun s => s.id)).count sid = 1)
    (hb : srv.prev_state.backup = false)
    (hup : srv_is_usable srv.prev_state srv.prev_eweight = true)
    (hdown : srv_is_usable srv.state srv.eweight = false) :
    usableActWeightPrev l = usableActWeight l + (srv.prev_eweight : Int) := by
  induction l with
  | nil => simp at hcount
  | cons a t ih =>
    by_cases ha : a.id = sid
    · have haa : a = srv := huni a (List.mem_cons_self a t) ha
      subst haa
      have hct : (t.map (fun s => s.id)).count sid = 0 := by
        rw [List.map_cons, List.count_cons] at hcount
        simp [ha] at hcount
        exact hcount
      have htr : ∀ s ∈ t, s.state = s.prev_state ∧ s.eweight = s.prev_eweight :=
        fun s hs => hrest s (List.mem_cons_of_mem a hs) (count_zero_rest t sid hct s hs)
      unfold usableActWeightPrev usableActWeight
      simp only [List.map_cons, List.sum_cons]
      have hrest2 := actWeight_rest t htr
      unfold usableActWeightPrev usableActWeight at hrest2
      rw [hrest2]
      rw [if_pos ⟨hb, hup⟩, if_neg (by rw [hdown]; exact fun hx => by simp at hx)]
      ring
    · have hct : (t.map (fun s => s.id)).count sid = 1 := by
        rw [List.map_cons, List.count_cons] at hcount
        simpa [ha] using hcount
      have := ih (fun s hs => hrest s (List.mem_cons_of_mem a hs))
        (fun s hs => huni s (List.mem_cons_of_mem a hs)) hct
      unfold usableActWeightPrev usableActWeight at this ⊢
      simp only [List.map_cons, List.sum_cons]
      obtain ⟨h1, h2⟩ := hrest a (List.mem_cons_self a t) ha
      rw [← h1, ← h2, this]
      ring

theorem bckWeightPrev_split (l : List Srv) (sid : Nat) (srv : Srv) (hsid : srv.id = sid)
    (hrest : ∀ s ∈ l, s.id ≠ sid → s.state = s.prev_state ∧ s.eweight = s.prev_eweight)
    (huni : ∀ s ∈ l, s.id = sid → s = srv)
    (hcount : (l.map (fun s => s.id)).count sid = 1)
    (hb : srv.prev_state.backup = true)
    (hup : srv_is_usable srv.prev_state srv.prev_eweight = true)
    (hdown : srv_is_usable srv.state srv.eweight = false) :
    usableBckWeightPrev l = usableBckWeight l + (srv.prev_eweight : Int) := by
  induction l with
  | nil => simp at hcount
  | cons a t ih =>
    by_cases ha : a.id = sid
    · have haa : a = srv := huni a (List.mem_cons_self a t) ha
      subst haa
      have hct : (t.map (fun s => s.id)).count sid = 0 := by
        rw [List.map_cons, List.count_cons] at hcount
        simp [ha] at hcount
        exact hcount
      have htr : ∀ s ∈ t, s.state = s.prev_state ∧ s.eweight = s.prev_eweight :=
        fun s hs => hrest s (List.mem_cons_of_mem a hs) (count_zero_rest t sid hct s hs)
      unfold usableBckWeightPrev usableBckWeight
      simp only [List.map_cons, List.sum_cons]
      have hrest2 := bckWeight_rest t htr
      unfold usableBckWeightPrev usableBckWeight at hrest2
      rw [hrest2]
      rw [if_pos ⟨hb, hup⟩, if_neg (by rw [hdown]; exact fun hx => by simp at hx)]
      ring
    · have hct : (t.map (fun s => s.id)).count sid = 1 := by
        rw [List.map_cons, List.count_cons] at hcount
        simpa [ha] using hcount
      have := ih (fun s hs => hrest s (List.mem_cons_of_mem a hs))
        (fun s hs => huni s (List.mem_cons_of_mem a hs)) hct
      unfold usableBckWeightPrev usableBckWeight at this ⊢
      simp only [List.map_cons, List.sum_cons]
      obtain ⟨h1, h2⟩ := hrest a (List.mem_cons_self a t) ha
      rw [← h1, ← h2, this]
      ring

theorem actWeight_upd (l : List Srv) (sid : Nat) (f : Srv → Srv)
    (h : ∀ s, (f s).state = s.state ∧ (f s).eweight = s.eweight) :
    usableActWeight (updSrvList sid f l) = usableActWeight l := by
  induction l with
  | nil => rfl
  | cons a t ih =>
    unfold updSrvList at ih ⊢
    unfold usableActWeight at ih ⊢
    simp only [List.map_cons, List.sum_cons]
    rw [ih]
    by_cases ha : a.id = sid
    · rw [if_pos ha, (h a).1, (h a).2]
    · rw [if_neg ha]

theorem bckWeight_upd (l : List Srv) (sid : Nat) (f : Srv → Srv)
    (h : ∀ s, (f s).state = s.state ∧ (f s).eweight = s.eweight) :
    usableBckWeight (updSrvList sid f l) = usableBckWeight l := by
  induction l with
  | nil => rfl
  | cons a t ih =>
    unfold updSrvList at ih ⊢
    unfold usableBckWeight at ih ⊢
    simp only [List.map_cons, List.sum_cons]
    rw [ih]
    by_cases ha : a.id = sid
    · rw [if_pos ha, (h a).1, (h a).2]
    · rw [if_neg ha]

theorem map_id_upd (l : List Srv) (sid : Nat) (f : Srv → Srv)
    (h : ∀ s, (f s).id = s.id) :
    (updSrvList sid f l).map (fun s => s.id) = l.map (fun s => s.id) := by
  induction l with
  | nil => rfl
  | cons a t ih =>
    unfold updSrvList at ih ⊢
    simp only [List.map_cons, ih]
    by_cases ha : a.id = sid
    · rw [if_pos ha, h a]
    · rw [if_neg ha]

theorem not_mem_erase_ids (l : List Srv) (sid : Nat)
    (hc : (l.map (fun s => s.id)).count sid ≤ 1) :
    sid ∉ (eb32_delete sid l).map (fun s => s.id) := by
  induction l with
  | nil => simp [eb32_delete]
  | cons a t ih =>
    unfold eb32_delete at ih ⊢
    by_cases ha : a.id = sid
    · rw [List.eraseP_cons_of_pos (by simp [ha])]
      have hct : (t.map (fun s => s.id)).count sid = 0 := by
        rw [List.map_cons, List.count_cons] at hc
        simp [ha] at hc
        omega
      intro hmem
      rw [List.count_eq_zero] at hct
      exact hct hmem
    · rw [List.eraseP_cons_of_neg (by simp [ha])]
      have hct : (t.map (fun s => s.id)).count sid ≤ 1 := by
        rw [List.map_cons, List.count_cons] at hc
        simp [ha] at hc
        omega
      intro hmem
      rw [List.map_cons, List.mem_cons] at hmem
      rcases hmem with h | h
      · exact ha h.symm
      · exact ih hct h

/-- C2.  When a usable server's status changes to down (its current state is
no longer usable while its previous snapshot was), `fwlc_set_server_status_down`
subtracts the server's previous effective weight from `tot_wact`, decrements
`srv_act`, removes the server's node from the trees and clears its tree
handle — symmetrically for a backup server with `tot_wbck`/`srv_bck` — so
that the aggregate again equals the sum of the effective weights of the
usable servers on the corresponding side.  The hypotheses say that `sid`
names exactly one server of the backend, that every other server is at rest
(state equal to its snapshot), and that the backup flag is stable across
the transition. -/
theorem fwlc_status_down_spec (p : FwlcBackend) (sid : Nat) (srv : Srv)
    (hfind : p.findSrv sid = some srv)
    (huni : ∀ s ∈ p.servers, s.id = sid → s = srv)
    (hcount : (p.servers.map (fun s => s.id)).count sid = 1)
    (hrest : ∀ s ∈ p.servers, s.id ≠ sid →
      s.state = s.prev_state ∧ s.eweight = s.prev_eweight)
    (hbfix : srv.prev_state.backup = srv.state.backup)
    (hup : srv_is_usable srv.prev_state srv.prev_eweight = true)
    (hdown : srv_is_usable srv.state srv.eweight = false)
    (hacount : (p.act.map (fun s => s.id)).count sid ≤ 1)
    (hbcount : (p.bck.map (fun s => s.id)).count sid ≤ 1) :
    (srv.state.backup = false →
      (fwlc_set_server_status_down p sid).tot_wact = p.tot_wact - (srv.prev_eweight : Int) ∧
      (fwlc_set_server_status_down p sid).srv_act = p.srv_act - 1 ∧
      ((fwlc_set_server_status_down p sid).findSrv sid).map (fun s => s.lb_tree) =
        some none ∧
      sid ∉ (fwlc_set_server_status_down p sid).act.map (fun s => s.id) ∧
      sid ∉ (fwlc_set_server_status_down p sid).bck.map (fun s => s.id) ∧
      (p.tot_wact = usableActWeightPrev p.servers →
        (fwlc_set_server_status_down p sid).tot_wact =
          usableActWeight (fwlc_set_server_status_down p sid).servers)) ∧
    (srv.state.backup = true →
      (fwlc_set_server_status_down p sid).tot_wbck = p.tot_wbck - (srv.prev_eweight : Int) ∧
      (fwlc_set_server_status_down p sid).srv_bck = p.srv_bck - 1 ∧
      ((fwlc_set_server_status_down p sid).findSrv sid).map (fun s => s.lb_tree) =
        some none ∧
      sid ∉ (fwlc_set_server_status_down p sid).act.map (fun s => s.id) ∧
      sid ∉ (fwlc_set_server_status_down p sid).bck.map (fun s => s.id) ∧
      (p.tot_wbck = usableBckWeightPrev p.servers →
        (fwlc_set_server_status_down p sid).tot_wbck =
          usableBckWeight (fwlc_set_server_status_down p sid).servers)) := by
  have hsid : srv.id = sid := by
    have := List.find?_some hfind
    simpa using this
  have hne1 : ¬ (srv.state = srv.prev_state ∧ srv.eweight = srv.prev_eweight) := by
    rintro ⟨h1, h2⟩
    rw [h1, h2, hup] at hdown
    exact Bool.noConfusion hdown
  constructor
  · -- active server
    intro hback
    have hq : fwlc_set_server_status_down p sid =
        fwlc_refresh_prev (update_backend_weight (fwlc_remove_from_tree (fwlc_dequeue_srv
          { p with tot_wact := p.tot_wact - (srv.prev_eweight : Int),
                   srv_act := p.srv_act - 1 } sid) sid)) sid := by
      simp only [fwlc_set_server_status_down, hfind, if_neg hne1, hdown, hup, hback,
        Bool.not_true, Bool.false_eq_true, if_false]
    have hservers : (fwlc_set_server_status_down p sid).servers =
        updSrvList sid (fun s => { s with prev_state := s.state, prev_eweight := s.eweight })
          (updSrvList sid (fun s => { s with lb_tree := none }) p.servers) := by
      rw [hq]; rfl
    have hact : (fwlc_set_server_status_down p sid).act =
        updSrvList sid (fun s => { s with prev_state := s.state, prev_eweight := s.eweight })
          (updSrvList sid (fun s => { s with lb_tree := none }) (eb32_delete sid p.act)) := by
      rw [hq]; rfl
    have hbck : (fwlc_set_server_status_down p sid).bck =
        updSrvList sid (fun s => { s with prev_state := s.state, prev_eweight := s.eweight })
          (updSrvList sid (fun s => { s with lb_tree := none }) (eb32_delete sid p.bck)) := by
      rw [hq]; rfl
    refine ⟨by rw [hq]; rfl, by rw [hq]; rfl, ?_, ?_, ?_, ?_⟩
    · have hf1 : (fwlc_remove_from_tree (fwlc_dequeue_srv
          { p with tot_wact := p.tot_wact - (srv.prev_eweight : Int),
                   srv_act := p.srv_act - 1 } sid) sid).findSrv sid =
          some { srv with lb_tree := none } := by
        unfold fwlc_remove_from_tree
        rw [findSrv_updSrv _ sid (fun s => { s with lb_tree := none }) (fun _ => rfl)]
        have : (fwlc_dequeue_srv
            { p with tot_wact := p.tot_wact - (srv.prev_eweight : Int),
                     srv_act := p.srv_act - 1 } sid).findSrv sid = some srv := hfind
        rw [this]
        rfl
      have hf2 : (fwlc_set_server_status_down p sid).findSrv sid =
          some { srv with lb_tree := none, prev_state := srv.state,
                          prev_eweight := srv.eweight } := by
        rw [hq]
        unfold fwlc_refresh_prev update_backend_weight
        rw [findSrv_updSrv _ sid
          (fun s => { s with prev_state := s.state, prev_eweight := s.eweight })
          (fun _ => rfl), hf1]
        rfl
      rw [hf2]
      rfl
    · rw [hact,
        map_id_upd _ sid
          (fun s => { s with prev_state := s.state, prev_eweight := s.eweight })
          (fun _ => rfl),
        map_id_upd _ sid (fun s => { s with lb_tree := none }) (fun _ => rfl)]
      exact not_mem_erase_ids p.act sid hacount
    · rw [hbck,
        map_id_upd _ sid
          (fun s => { s with prev_state := s.state, prev_eweight := s.eweight })
          (fun _ => rfl),
        map_id_upd _ sid (fun s => { s with lb_tree := none }) (fun _ => rfl)]
      exact not_mem_erase_ids p.bck sid hbcount
    · intro hinv
      have hw1 : usableActWeight (fwlc_set_server_status_down p sid).servers =
          usableActWeight p.servers := by
        rw [hservers,
          actWeight_upd _ sid
            (fun s => { s with prev_state := s.state, prev_eweight := s.eweight })
            (fun s => ⟨rfl, rfl⟩),
          actWeight_upd _ sid (fun s => { s with lb_tree := none })
            (fun s => ⟨rfl, rfl⟩)]
      have hsplit := actWeightPrev_split p.servers sid srv hsid hrest huni hcount
        (by rw [hbfix, hback]) hup hdown
      have htot : (fwlc_set_server_status_down p sid).tot_wact =
          p.tot_wact - (srv.prev_eweight : Int) := by rw [hq]; rfl
      rw [htot, hinv, hsplit, hw1]
      ring
  · -- backup server
    intro hback
    have hq : fwlc_set_server_status_down p sid =
        fwlc_refresh_prev (update_backend_weight (fwlc_remove_from_tree (fwlc_dequeue_srv
          (if p.fbck = some sid then
            { p with tot_wbck := p.tot_wbck - (srv.prev_eweight : Int),
                     srv_bck := p.srv_bck - 1,
                     fbck := find_next_usable_bck p.servers sid }
           else
            { p with tot_wbck := p.tot_wbck - (srv.prev_eweight : Int),
                     srv_bck := p.srv_bck - 1 }) sid) sid)) sid := by
      simp only [fwlc_set_server_status_down, hfind, if_neg hne1, hdown, hup, hback,
        Bool.not_true, Bool.false_eq_true, if_false, if_true]
    have hp1tot : (if p.fbck = some sid then
        ({ p with tot_wbck := p.tot_wbck - (srv.prev_eweight : Int),
                  srv_bck := p.srv_bck - 1,
                  fbck := find_next_usable_bck p.servers sid } : FwlcBackend)
       else
        { p with tot_wbck := p.tot_wbck - (srv.prev_eweight : Int),
                 srv_bck := p.srv_bck - 1 }).tot_wbck =
        p.tot_wbck - (srv.prev_eweight : Int) := by
      split <;> rfl
    have hp1cnt : (if p.fbck = some sid then
        ({ p with tot_wbck := p.tot_wbck - (srv.prev_eweight : Int),
                  srv_bck := p.srv_bck - 1,
                  fbck := find_next_usable_bck p.servers sid } : FwlcBackend)
       else
        { p with tot_wbck := p.tot_wbck - (srv.prev_eweight : Int),
                 srv_bck := p.srv_bck - 1 }).srv_bck = p.srv_bck - 1 := by
      split <;> rfl
    have hp1srv : (if p.fbck = some sid then
        ({ p with tot_wbck := p.tot_wbck - (srv.prev_eweight : Int),
                  srv_bck := p.srv_bck - 1,
                  fbck := find_next_usable_bck p.servers sid } : FwlcBackend)
       else
        { p with tot_wbck := p.tot_wbck - (srv.prev_eweight : Int),
                 srv_bck := p.srv_bck - 1 }).servers = p.servers := by
      split <;> rfl
    have hp1act : (if p.fbck = some sid then
        ({ p with tot_wbck := p.tot_wbck - (srv.prev_eweight : Int),
                  srv_bck := p.srv_bck - 1,
                  fbck := find_next_usable_bck p.servers sid } : FwlcBackend)
       else
        { p with tot_wbck := p.tot_wbck - (srv.prev_eweight : Int),
                 srv_bck := p.srv_bck - 1 }).act = p.act := by
      split <;> rfl
    have hp1bck : (if p.fbck = some sid then
        ({ p with tot_wbck := p.tot_wbck - (srv.prev_eweight : Int),
                  srv_bck := p.srv_bck - 1,
                  fbck := find_next_usable_bck p.servers sid } : FwlcBackend)
       else
        { p with tot_wbck := p.tot_wbck - (srv.prev_eweight : Int),
                 srv_bck := p.srv_bck - 1 }).bck = p.bck := by
      split <;> rfl
    have hservers : (fwlc_set_server_status_down p sid).servers =
        updSrvList sid (fun s => { s with prev_state := s.state, prev_eweight := s.eweight })
          (updSrvList sid (fun s => { s with lb_tree := none }) p.servers) := by
      rw [hq]
      simp only [fwlc_refresh_prev, FwlcBackend.updSrv, update_backend_weight,
        fwlc_remove_from_tree, fwlc_dequeue_srv]
      rw [hp1srv]
    have hact : (fwlc_set_server_status_down p sid).act =
        updSrvList sid (fun s => { s with prev_state := s.state, prev_eweight := s.eweight })
          (updSrvList sid (fun s => { s with lb_tree := none }) (eb32_delete sid p.act)) := by
      rw [hq]
      simp only [fwlc_refresh_prev, FwlcBackend.updSrv, update_backend_weight,
        fwlc_remove_from_tree, fwlc_dequeue_srv]
      rw [hp1act]
    have hbck : (fwlc_set_server_status_down p sid).bck =
        updSrvList sid (fun s => { s with prev_state := s.state, prev_eweight := s.eweight })
          (updSrvList sid (fun s => { s with lb_tree := none }) (eb32_delete sid p.bck)) := by
      rw [hq]
      simp only [fwlc_refresh_prev, FwlcBackend.updSrv, update_backend_weight,
        fwlc_remove_from_tree, fwlc_dequeue_srv]
      rw [hp1bck]
    refine ⟨?_, ?_, ?_, ?_, ?_, ?_⟩
    · rw [hq]
      simp only [fwlc_refresh_prev, FwlcBackend.updSrv, update_backend_weight,
        fwlc_remove_from_tree, fwlc_dequeue_srv]
      rw [hp1tot]
    · rw [hq]
      simp only [fwlc_refresh_prev, FwlcBackend.updSrv, update_backend_weight,
        fwlc_remove_from_tree, fwlc_dequeue_srv]
      rw [hp1cnt]
    · have hf2 : (fwlc_set_server_status_down p sid).findSrv sid =
          some { srv with lb_tree := none, prev_state := srv.state,
                          prev_eweight := srv.eweight } := by
        unfold FwlcBackend.findSrv
        rw [hservers]
        rw [find_updSrvList _ sid
            (fun s => { s with prev_state := s.state, prev_eweight := s.eweight })
            (fun _ => rfl),
          find_updSrvList _ sid (fun s => { s with lb_tree := none }) (fun _ => rfl)]
        have hfd : p.servers.find? (fun s => s.id == sid) = some srv := hfind
        rw [hfd]
        rfl
      rw [hf2]
      rfl
    · rw [hact,
        map_id_upd _ sid
          (fun s => { s with prev_state := s.state, prev_eweight := s.eweight })
          (fun _ => rfl),
        map_id_upd _ sid (fun s => { s with lb_tree := none }) (fun _ => rfl)]
      exact not_mem_erase_ids p.act sid hacount
    · rw [hbck,
        map_id_upd _ sid
          (fun s => { s with prev_state := s.state, prev_eweight := s.eweight })
          (fun _ => rfl),
        map_id_upd _ sid (fun s => { s with lb_tree := none }) (fun _ => rfl)]
      exact not_mem_erase_ids p.bck sid hbcount
    · intro hinv
      have hw1 : usableBckWeight (fwlc_set_server_status_down p sid).servers =
          usableBckWeight p.servers := by
        rw [hservers,
          bckWeight_upd _ sid
            (fun s => { s with prev_state := s.state, prev_eweight := s.eweight })
            (fun s => ⟨rfl, rfl⟩),
          bckWeight_upd _ sid (fun s => { s with lb_tree := none })
            (fun s => ⟨rfl, rfl⟩)]
      have hsplit := bckWeightPrev_split p.servers sid srv hsid hrest huni hcount
        (by rw [hbfix, hback]) hup hdown
      have htot : (fwlc_set_server_status_down p sid).tot_wbck =
          p.tot_wbck - (srv.prev_eweight : Int) := by
        rw [hq]
        simp only [fwlc_refresh_prev, FwlcBackend.updSrv, update_backend_weight,
          fwlc_remove_from_tree, fwlc_dequeue_srv]
        rw [hp1tot]
      rw [htot, hinv, hsplit, hw1]
      ring

/-- Witness for C2: active pool {A(id 1, eweight 16), B(id 2, eweight 32)}
with `tot_wact = 48`; B's state goes down (running flag cleared).  The
bookkeeping leaves `tot_wact = 16`, `srv_act = 1`, B's tree handle cleared,
B out of the active tree, and the invariant re-established. -/
theorem fwlc_status_down_spec_witness :
    (fwlc_set_server_status_down
      { servers := [{ id := 1, state := ⟨true, false, false, false⟩,
                      prev_state := ⟨true, false, false, false⟩,
                      eweight := 16, prev_eweight := 16, uweight := 1, served := 0,
                      nbpend := 0, maxconn := 0, dyn_maxconn := 0,
                      lb_tree := some TreeRef.fwlcAct, lb_node_key := 0,
                      lpos := 0, npos := 0, rweight := 0 },
                    { id := 2, state := ⟨false, false, false, false⟩,
                      prev_state := ⟨true, false, false, false⟩,
                      eweight := 32, prev_eweight := 32, uweight := 2, served := 0,
                      nbpend := 0, maxconn := 0, dyn_maxconn := 0,
                      lb_tree := some TreeRef.fwlcAct, lb_node_key := 0,
                      lpos := 0, npos := 0, rweight := 0 }],
        act := [{ id := 1, state := ⟨true, false, false, false⟩,
                  prev_state := ⟨true, false, false, false⟩,
                  eweight := 16, prev_eweight := 16, uweight := 1, served := 0,
                  nbpend := 0, maxconn := 0, dyn_maxconn := 0,
                  lb_tree := some TreeRef.fwlcAct, lb_node_key := 0,
                  lpos := 0, npos := 0, rweight := 0 },
                { id := 2, state := ⟨false, false, false, false⟩,
                  prev_state := ⟨true, false, false, false⟩,
                  eweight := 32, prev_eweight := 32, uweight := 2, served := 0,
                  nbpend := 0, maxconn := 0, dyn_maxconn := 0,
                  lb_tree := some TreeRef.fwlcAct, lb_node_key := 0,
                  lpos := 0, npos := 0, rweight := 0 }],
        bck := [], tot_wact := 48, tot_wbck := 0,
        srv_act := 2, srv_bck := 0, fbck := none } 2).tot_wact = 16 ∧
    (fwlc_set_server_status_down
      { servers := [{ id := 1, state := ⟨true, false, false, false⟩,
                      prev_state := ⟨true, false, false, false⟩,
                      eweight := 16, prev_eweight := 16, uweight := 1, served := 0,
                      nbpend := 0, maxconn := 0, dyn_maxconn := 0,
                      lb_tree := some TreeRef.fwlcAct, lb_node_key := 0,
                      lpos := 0, npos := 0, rweight := 0 },
                    { id := 2, state := ⟨false, false, false, false⟩,
                      prev_state := ⟨true, false, false, false⟩,
                      eweight := 32, prev_eweight := 32, uweight := 2, served := 0,
                      nbpend := 0, maxconn := 0, dyn_maxconn := 0,
                      lb_tree := some TreeRef.fwlcAct, lb_node_key := 0,
                      lpos := 0, npos := 0, rweight := 0 }],
        act := [{ id := 1, state := ⟨true, false, false, false⟩,
                  prev_state := ⟨true, false, false, false⟩,
                  eweight := 16, prev_eweight := 16, uweight := 1, served := 0,
                  nbpend := 0, maxconn := 0, dyn_maxconn := 0,
                  lb_tree := some TreeRef.fwlcAct, lb_node_key := 0,
                  lpos := 0, npos := 0, rweight := 0 },
                { id := 2, state := ⟨false, false, false, false⟩,
                  prev_state := ⟨true, false, false, false⟩,
                  eweight := 32, prev_eweight := 32, uweight := 2, served := 0,
                  nbpend := 0, maxconn := 0, dyn_maxconn := 0,
                  lb_tree := some TreeRef.fwlcAct, lb_node_key := 0,
                  lpos := 0, npos := 0, rweight := 0 }],
        bck := [], tot_wact := 48, tot_wbck := 0,
        srv_act := 2, srv_bck := 0, fbck := none } 2).srv_act = 1 ∧
    (2 : Nat) ∉ (fwlc_set_server_status_down
      { servers := [{ id := 1, state := ⟨true, false, false, false⟩,
                      prev_state := ⟨true, false, false, false⟩,
                      eweight := 16, prev_eweight := 16, uweight := 1, served := 0,
                      nbpend := 0, maxconn := 0, dyn_maxconn := 0,
                      lb_tree := some TreeRef.fwlcAct, lb_node_key := 0,
                      lpos := 0, npos := 0, rweight := 0 },
                    { id := 2, state := ⟨false, false, false, false⟩,
                      prev_state := ⟨true, false, false, false⟩,
                      eweight := 32, prev_eweight := 32, uweight := 2, served := 0,
                      nbpend := 0, maxconn := 0, dyn_maxconn := 0,
                      lb_tree := some TreeRef.fwlcAct, lb_node_key := 0,
                      lpos := 0, npos := 0, rweight := 0 }],
        act := [{ id := 1, state := ⟨true, false, false, false⟩,
                  prev_state := ⟨true, false, false, false⟩,
                  eweight := 16, prev_eweight := 16, uweight := 1, served := 0,
                  nbpend := 0, maxconn := 0, dyn_maxconn := 0,
                  lb_tree := some TreeRef.fwlcAct, lb_node_key := 0,
                  lpos := 0, npos := 0, rweight := 0 },
                { id := 2, state := ⟨false, false, false, false⟩,
                  prev_state := ⟨true, false, false, false⟩,
                  eweight := 32, prev_eweight := 32, uweight := 2, served := 0,
                  nbpend := 0, maxconn := 0, dyn_maxconn := 0,
                  lb_tree := some TreeRef.fwlcAct, lb_node_key := 0,
                  lpos := 0, npos := 0, rweight := 0 }],
        bck := [], tot_wact := 48, tot_wbck := 0,
        srv_act := 2, srv_bck := 0, fbck := none } 2).act.map (fun s => s.id) := by
  have h := (fwlc_status_down_spec
    { servers := [{ id := 1, state := ⟨true, false, false, false⟩,
                    prev_state := ⟨true, false, false, false⟩,
                    eweight := 16, prev_eweight := 16, uweight := 1, served := 0,
                    nbpend := 0, maxconn := 0, dyn_maxconn := 0,
                    lb_tree := some TreeRef.fwlcAct, lb_node_key := 0,
                    lpos := 0, npos := 0, rweight := 0 },
                  { id := 2, state := ⟨false, false, false, false⟩,
                    prev_state := ⟨true, false, false, false⟩,
                    eweight := 32, prev_eweight := 32, uweight := 2, served := 0,
                    nbpend := 0, maxconn := 0, dyn_maxconn := 0,
                    lb_tree := some TreeRef.fwlcAct, lb_node_key := 0,
                    lpos := 0, npos := 0, rweight := 0 }],
      act := [{ id := 1, state := ⟨true, false, false, false⟩,
                prev_state := ⟨true, false, false, false⟩,
                eweight := 16, prev_eweight := 16, uweight := 1, served := 0,
                nbpend := 0, maxconn := 0, dyn_maxconn := 0,
                lb_tree := some TreeRef.fwlcAct, lb_node_key := 0,
                lpos := 0, npos := 0, rweight := 0 },
              { id := 2, state := ⟨false, false, false, false⟩,
                prev_state := ⟨true, false, false, false⟩,
                eweight := 32, prev_eweight := 32, uweight := 2, served := 0,
                nbpend := 0, maxconn := 0, dyn_maxconn := 0,
                lb_tree := some TreeRef.fwlcAct, lb_node_key := 0,
                lpos := 0, npos := 0, rweight := 0 }],
      bck := [], tot_wact := 48, tot_wbck := 0,
      srv_act := 2, srv_bck := 0, fbck := none } 2
    { id := 2, state := ⟨false, false, false, false⟩,
      prev_state := ⟨true, false, false, false⟩,
      eweight := 32, prev_eweight := 32, uweight := 2, served := 0,
      nbpend := 0, maxconn := 0, dyn_maxconn := 0,
      lb_tree := some TreeRef.fwlcAct, lb_node_key := 0,
      lpos := 0, npos := 0, rweight := 0 }
    rfl (by decide) (by decide) (by decide) rfl (by decide) (by decide)
    (by decide) (by decide)).1 rfl
  exact ⟨h.1.trans (by decide), h.2.1.trans (by decide), h.2.2.2.1⟩

/-! ## C5: the spec-list discipline of the speculative engine -/

theorem getD_replicate (n i : Nat) : (List.replicate n (0 : Nat)).getD i 0 = 0 := by
  induction n generalizing i with
  | zero => simp
  | succ m ih =>
    cases i with
    | zero => rfl
    | succ j => simp [List.replicate, ih j]

theorem specInvP_init (nfd : Nat) : specInvP (specInit nfd) := by
  unfold specInvP specInvCore specInit
  refine ⟨⟨by simp, ?_, ?_, ?_⟩, ?_⟩
  · intro i hi
    simp at hi
  · intro fd hfd hne
    exact absurd (getD_replicate nfd fd) hne
  · intro fd hfd
    simp only [getD_replicate]
    omega
  · intro fd hfd hsl
    rw [getD_replicate] at hsl
    exact absurd hsl (by decide)

theorem count_eq_one_of_unique_index (l : List Nat) (x : Nat) (k : Nat)
    (hk : k < l.length) (hget : l.getD k 0 = x)
    (huniq : ∀ i, i < l.length → l.getD i 0 = x → i = k) :
    l.count x = 1 := by
  induction l generalizing k with
  | nil => simp at hk
  | cons a t ih =>
    cases k with
    | zero =>
      have ha : a = x := hget
      subst ha
      rw [List.count_cons_self]
      have hz : t.count a = 0 := by
        rw [List.count_eq_zero]
        intro hmem
        obtain ⟨⟨i, hi⟩, hgi⟩ := List.mem_iff_get.mp hmem
        have hglt : i + 1 < (a :: t).length := by simpa using Nat.succ_lt_succ hi
        have : i + 1 = 0 := huniq (i + 1) hglt
          (by rw [List.getD_eq_getElem _ _ hglt]; exact hgi)
        omega
      rw [hz]
    | succ j =>
      have hne : a ≠ x := by
        intro ha
        have : 0 = j + 1 := huniq 0 (by simp) ha
        omega
      rw [List.count_cons_of_ne (fun h => hne h.symm)]
      refine ih j (by simpa using hk) hget ?_
      intro i hi hgi
      have := huniq (i + 1) (by simpa using Nat.succ_lt_succ hi) hgi
      omega

theorem alloc_spec_entry_inv (st : SpecState) (fd : Nat) (hfd : fd < st.events.length)
    (h : specInvP st) :
    specInvP (alloc_spec_entry st fd) ∧
    (alloc_spec_entry st fd).backref.getD fd 0 ≠ 0 ∧
    (∀ fd2, fd2 ≠ fd →
      (alloc_spec_entry st fd).backref.getD fd2 0 = st.backref.getD fd2 0) := by
  obtain ⟨⟨hlen, hP2, hP3, hP5⟩, hP4⟩ := h
  unfold alloc_spec_entry
  by_cases hz : st.backref.getD fd 0 ≠ 0
  · rw [if_pos hz]
    exact ⟨⟨⟨hlen, hP2, hP3, hP5⟩, hP4⟩, hz, fun _ _ => rfl⟩
  · rw [if_neg hz]
    push_neg at hz
    have hfdb : fd < st.backref.length := by rw [hlen]; exact hfd
    have hself : (st.backref.set fd (st.slist.length + 1)).getD fd 0 =
        st.slist.length + 1 := getD_set_self _ _ _ _ hfdb
    have hother : ∀ fd2, fd2 ≠ fd →
        (st.backref.set fd (st.slist.length + 1)).getD fd2 0 =
          st.backref.getD fd2 0 :=
      fun fd2 hne => getD_set_ne _ _ _ _ _ (fun he => hne he.symm)
    refine ⟨⟨⟨?_, ?_, ?_, ?_⟩, ?_⟩, ?_, ?_⟩
    · simpa using hlen
    · intro i hi
      rw [List.length_append, List.length_singleton] at hi
      by_cases hil : i < st.slist.length
      · rw [getD_append_lt _ _ _ _ hil]
        obtain ⟨hb, he⟩ := hP2 i hil
        have hne : st.slist.getD i 0 ≠ fd := by
          intro hx
          rw [hx, hz] at he
          omega
        rw [hother _ hne]
        exact ⟨hb, he⟩
      · have hieq : i = st.slist.length := by omega
        subst hieq
        rw [getD_append_last]
        exact ⟨hfd, hself⟩
    · intro fd2 hfd2 hne
      by_cases hq : fd2 = fd
      · subst hq
        rw [hself]
        constructor
        · rw [List.length_append, List.length_singleton]
        · have : st.slist.length + 1 - 1 = st.slist.length := by omega
          rw [this, getD_append_last]
      · rw [hother _ hq] at hne ⊢
        obtain ⟨hb, he⟩ := hP3 fd2 hfd2 hne
        constructor
        · rw [List.length_append, List.length_singleton]
          omega
        · rw [getD_append_lt _ _ _ _ (by omega)]
          exact he
    · exact hP5
    · intro fd2 hfd2 hsl
      by_cases hq : fd2 = fd
      · subst hq
        rw [hself]
        omega
      · rw [hother _ hq]
        exact hP4 fd2 hfd2 hsl
    · rw [hself]
      omega
    · exact fun fd2 hne => hother fd2 hne

theorem release_spec_entry_inv (st : SpecState) (fd : Nat) (hfd : fd < st.events.length)
    (h : specInvP st) :
    specInvCore (release_spec_entry st fd) ∧
    (∀ fd2, fd2 < st.events.length → fd2 ≠ fd →
      hasSL (st.events.getD fd2 0) = true →
      (release_spec_entry st fd).backref.getD fd2 0 ≠ 0) ∧
    (release_spec_entry st fd).events = st.events ∧
    (release_spec_entry st fd).backref.getD fd 0 = 0 := by
  obtain ⟨⟨hlen, hP2, hP3, hP5⟩, hP4⟩ := h
  have hfdb : fd < st.backref.length := by rw [hlen]; exact hfd
  unfold release_spec_entry
  by_cases hz : st.backref.getD fd 0 = 0
  · rw [if_pos hz]
    exact ⟨⟨hlen, hP2, hP3, hP5⟩, fun fd2 h2 _ hs => hP4 fd2 h2 hs, rfl, hz⟩
  · rw [if_neg hz]
    obtain ⟨hple, hplist⟩ := hP3 fd hfd hz
    have hpos1 : 1 ≤ st.backref.getD fd 0 := Nat.one_le_iff_ne_zero.mpr hz
    have hslen1 : 1 ≤ st.slist.length := le_trans hpos1 hple
    by_cases hpn : st.backref.getD fd 0 - 1 = st.slist.length - 1
    · rw [if_pos hpn]
      have hbr0 : (st.backref.set fd 0).getD fd 0 = 0 := getD_set_self _ _ _ _ hfdb
      have hbro : ∀ fd2, fd2 ≠ fd →
          (st.backref.set fd 0).getD fd2 0 = st.backref.getD fd2 0 :=
        fun fd2 hne => getD_set_ne _ _ _ _ _ (fun he => hne he.symm)
      have hlentake : (st.slist.take (st.slist.length - 1)).length =
          st.slist.length - 1 := by
        rw [List.length_take]
        omega
      refine ⟨⟨by simpa using hlen, ?_, ?_, hP5⟩, ?_, rfl, hbr0⟩
      · intro i hi
        rw [hlentake] at hi
        rw [getD_take_lt _ _ _ _ hi]
        obtain ⟨hb, he⟩ := hP2 i (by omega)
        have hne : st.slist.getD i 0 ≠ fd := by
          intro hx
          rw [hx] at he
          omega
        rw [hbro _ hne]
        exact ⟨hb, he⟩
      · intro fd2 hfd2 hne
        have hq : fd2 ≠ fd := by
          intro he
          subst he
          exact hne hbr0
        rw [hbro _ hq] at hne ⊢
        obtain ⟨hb, he⟩ := hP3 fd2 hfd2 hne
        have hlt : st.backref.getD fd2 0 - 1 < st.slist.length - 1 := by
          rcases Nat.lt_or_ge (st.backref.getD fd2 0) st.slist.length with hc | hc
          · omega
          · exfalso
            have hb2 : st.backref.getD fd2 0 = st.slist.length := by omega
            rw [hb2] at he
            rw [← hpn] at he
            rw [hplist] at he
            exact hq he.symm
        rw [hlentake, getD_take_lt _ _ _ _ hlt]
        exact ⟨by omega, he⟩
      · intro fd2 hfd2 hq hs
        rw [hbro _ hq]
        exact hP4 fd2 hfd2 hs
    · rw [if_neg hpn]
      have hnlt : st.slist.length - 1 < st.slist.length := by omega
      have hplt : st.backref.getD fd 0 - 1 < st.slist.length - 1 := by omega
      obtain ⟨hlast_lt, hlast_br⟩ := hP2 (st.slist.length - 1) hnlt
      have hlast_ne : st.slist.getD (st.slist.length - 1) 0 ≠ fd := by
        intro hx
        rw [hx] at hlast_br
        omega
      have hlastb : st.slist.getD (st.slist.length - 1) 0 < st.backref.length := by
        rw [hlen]; exact hlast_lt
      have hbrfd : ((st.backref.set fd 0).set (st.slist.getD (st.slist.length - 1) 0)
          (st.backref.getD fd 0 - 1 + 1)).getD fd 0 = 0 := by
        rw [getD_set_ne _ _ _ _ _ hlast_ne, getD_set_self _ _ _ _ hfdb]
      have hbrlast : ((st.backref.set fd 0).set (st.slist.getD (st.slist.length - 1) 0)
          (st.backref.getD fd 0 - 1 + 1)).getD (st.slist.getD (st.slist.length - 1) 0) 0 =
          st.backref.getD fd 0 - 1 + 1 := by
        rw [getD_set_self]
        simpa using hlastb
      have hbro : ∀ fd2, fd2 ≠ fd → fd2 ≠ st.slist.getD (st.slist.length - 1) 0 →
          ((st.backref.set fd 0).set (st.slist.getD (st.slist.length - 1) 0)
            (st.backref.getD fd 0 - 1 + 1)).getD fd2 0 = st.backref.getD fd2 0 := by
        intro fd2 hne1 hne2
        rw [getD_set_ne _ _ _ _ _ (fun he => hne2 he.symm),
          getD_set_ne _ _ _ _ _ (fun he => hne1 he.symm)]
      have hslen_set : (st.slist.set (st.backref.getD fd 0 - 1)
          (st.slist.getD (st.slist.length - 1) 0)).length = st.slist.length :=
        List.length_set _ _ _
      have hlentake : ((st.slist.set (st.backref.getD fd 0 - 1)
          (st.slist.getD (st.slist.length - 1) 0)).take (st.slist.length - 1)).length =
          st.slist.length - 1 := by
        rw [List.length_take, hslen_set]
        omega
      have hsl_at : ∀ i, i < st.slist.length - 1 →
          ((st.slist.set (st.backref.getD fd 0 - 1)
            (st.slist.getD (st.slist.length - 1) 0)).take (st.slist.length - 1)).getD i 0 =
          (if i = st.backref.getD fd 0 - 1
           then st.slist.getD (st.slist.length - 1) 0
           else st.slist.getD i 0) := by
        intro i hi
        rw [getD_take_lt _ _ _ _ hi]
        by_cases hip : i = st.backref.getD fd 0 - 1
        · subst hip
          rw [if_pos rfl]
          exact getD_set_self _ _ _ _ (by omega)
        · rw [if_neg hip]
          exact getD_set_ne _ _ _ _ _ (fun he => hip he.symm)
      refine ⟨⟨by simpa using hlen, ?_, ?_, hP5⟩, ?_, rfl, hbrfd⟩
      · intro i hi
        rw [hlentake] at hi
        rw [hsl_at i hi]
        by_cases hip : i = st.backref.getD fd 0 - 1
        · subst hip
          rw [if_pos rfl, hbrlast]
          constructor
          · exact hlast_lt
          · omega
        · rw [if_neg hip]
          obtain ⟨hb, he⟩ := hP2 i (by omega)
          have hne1 : st.slist.getD i 0 ≠ fd := by
            intro hx
            rw [hx] at he
            omega
          have hne2 : st.slist.getD i 0 ≠ st.slist.getD (st.slist.length - 1) 0 := by
            intro hx
            rw [hx, hlast_br] at he
            omega
          rw [hbro _ hne1 hne2]
          exact ⟨hb, he⟩
      · intro fd2 hfd2 hne
        by_cases hq1 : fd2 = fd
        · subst hq1
          exact absurd hbrfd hne
        · by_cases hq2 : fd2 = st.slist.getD (st.slist.length - 1) 0
          · subst hq2
            rw [hbrlast]
            refine ⟨by rw [hlentake]; omega, ?_⟩
            have hred : st.backref.getD fd 0 - 1 + 1 - 1 = st.backref.getD fd 0 - 1 := by
              omega
            rw [hred, hsl_at _ hplt, if_pos rfl]
          · rw [hbro _ hq1 hq2] at hne ⊢
            obtain ⟨hb, he⟩ := hP3 fd2 hfd2 hne
            have hs1 : st.backref.getD fd2 0 - 1 ≠ st.backref.getD fd 0 - 1 := by
              intro hx
              have h1 : st.backref.getD fd2 0 = st.backref.getD fd 0 := by omega
              rw [h1, hplist] at he
              exact hq1 he.symm
            have hs2 : st.backref.getD fd2 0 - 1 ≠ st.slist.length - 1 := by
              intro hx
              rw [hx] at he
              exact hq2 he.symm
            have hs3 : st.backref.getD fd2 0 - 1 < st.slist.length - 1 := by
              omega
            refine ⟨by rw [hlentake]; omega, ?_⟩
            rw [hsl_at _ hs3, if_neg hs1]
            exact he
      · intro fd2 hfd2 hq hs
        by_cases hq2 : fd2 = st.slist.getD (st.slist.length - 1) 0
        · subst hq2
          rw [hbrlast]
          omega
        · rw [hbro _ hq hq2]
          exact hP4 fd2 hfd2 hs

theorem sepoll_word_lt16 : ∀ e, e < 16 → ∀ dir, dir < 2 →
    e ^^^ (FD_EV_IN_SL <<< dir) < 16 := by decide

theorem sepoll_word_hasSL : ∀ e, e < 16 → ∀ dir, dir < 2 →
    ((e >>> dir) &&& FD_EV_MASK_DIR = FD_EV_STOP ∨
     (e >>> dir) &&& FD_EV_MASK_DIR = FD_EV_SPEC) → hasSL e = true := by decide

theorem sepoll_word_clo : ∀ e, e < 16 → (e >>> 4) <<< 4 = 0 := by decide

theorem events_update_inv (st1 : SpecState) (fd v : Nat)
    (hfd : fd < st1.events.length) (hv : v < 16)
    (h1 : specInvCore st1)
    (hP4o : ∀ fd2, fd2 < st1.events.length → fd2 ≠ fd →
      hasSL (st1.events.getD fd2 0) = true → st1.backref.getD fd2 0 ≠ 0)
    (hP4s : hasSL v = true → st1.backref.getD fd 0 ≠ 0) :
    specInvP { st1 with events := st1.events.set fd v } := by
  obtain ⟨hlen, hP2, hP3, hP5⟩ := h1
  have hlenset : (st1.events.set fd v).length = st1.events.length :=
    List.length_set _ _ _
  refine ⟨⟨by rw [hlenset]; exact hlen, ?_, ?_, ?_⟩, ?_⟩
  · intro i hi
    obtain ⟨hb, he⟩ := hP2 i hi
    exact ⟨by rw [hlenset]; exact hb, he⟩
  · intro fd2 hfd2 hne
    rw [hlenset] at hfd2
    exact hP3 fd2 hfd2 hne
  · intro fd2 hfd2
    rw [hlenset] at hfd2
    by_cases hq : fd2 = fd
    · subst hq
      rw [getD_set_self _ _ _ _ hfd]
      exact hv
    · rw [getD_set_ne _ _ _ _ _ (fun he => hq he.symm)]
      exact hP5 fd2 hfd2
  · intro fd2 hfd2 hs
    rw [hlenset] at hfd2
    by_cases hq : fd2 = fd
    · subst hq
      rw [getD_set_self _ _ _ _ hfd] at hs
      exact hP4s hs
    · rw [getD_set_ne _ _ _ _ _ (fun he => hq he.symm)] at hs
      exact hP4o fd2 hfd2 hq hs

theorem sepoll_fd_set_inv (st : SpecState) (fd dir : Nat)
    (hfd : fd < st.events.length) (hdir : dir < 2)
    (h : specInvP st) : specInvP (sepoll_fd_set st fd dir).1 := by
  simp only [sepoll_fd_set]
  split
  · exact h
  · rename_i hc
    by_cases hstop : (st.events.getD fd 0 >>> dir) &&& FD_EV_MASK_DIR = FD_EV_STOP
    · rw [if_pos hstop]
      refine events_update_inv st fd _ hfd
        (sepoll_word_lt16 _ (h.1.2.2.2 fd hfd) dir hdir) h.1
        (fun fd2 h2 _ hs => h.2 fd2 h2 hs) ?_
      intro _
      exact h.2 fd hfd (sepoll_word_hasSL _ (h.1.2.2.2 fd hfd) dir hdir (Or.inl hstop))
    · rw [if_neg hstop]
      obtain ⟨hinv1, hbr1, _⟩ := alloc_spec_entry_inv st fd hfd h
      have hev : (alloc_spec_entry st fd).events = st.events :=
        alloc_spec_entry_events st fd
      refine events_update_inv (alloc_spec_entry st fd) fd _ (by rw [hev]; exact hfd)
        ?_ hinv1.1 (fun fd2 h2 _ hs => hinv1.2 fd2 h2 hs) (fun _ => hbr1)
      rw [hev]
      exact sepoll_word_lt16 _ (h.1.2.2.2 fd hfd) dir hdir

theorem sepoll_fd_clr_inv (st : SpecState) (fd dir : Nat)
    (hfd : fd < st.events.length) (hdir : dir < 2)
    (h : specInvP st) : specInvP (sepoll_fd_clr st fd dir).1 := by
  simp only [sepoll_fd_clr]
  split
  · exact h
  · rename_i hc
    by_cases hspec : (st.events.getD fd 0 >>> dir) &&& FD_EV_MASK_DIR = FD_EV_SPEC
    · rw [if_pos hspec]
      refine events_update_inv st fd _ hfd
        (sepoll_word_lt16 _ (h.1.2.2.2 fd hfd) dir hdir) h.1
        (fun fd2 h2 _ hs => h.2 fd2 h2 hs) ?_
      intro _
      exact h.2 fd hfd (sepoll_word_hasSL _ (h.1.2.2.2 fd hfd) dir hdir (Or.inr hspec))
    · rw [if_neg hspec]
      obtain ⟨hinv1, hbr1, _⟩ := alloc_spec_entry_inv st fd hfd h
      have hev : (alloc_spec_entry st fd).events = st.events :=
        alloc_spec_entry_events st fd
      refine events_update_inv (alloc_spec_entry st fd) fd _ (by rw [hev]; exact hfd)
        ?_ hinv1.1 (fun fd2 h2 _ hs => hinv1.2 fd2 h2 hs) (fun _ => hbr1)
      rw [hev]
      exact sepoll_word_lt16 _ (h.1.2.2.2 fd hfd) dir hdir

theorem sepoll_fd_clo_inv (st : SpecState) (fd : Nat)
    (hfd : fd < st.events.length)
    (h : specInvP st) : specInvP (sepoll_fd_clo st fd) := by
  simp only [sepoll_fd_clo]
  obtain ⟨hcore, hoth, hev, hbr0⟩ := release_spec_entry_inv st fd hfd h
  have hevlen : (release_spec_entry st fd).events.length = st.events.length := by
    rw [hev]
  have hval : (release_spec_entry st fd).events.getD fd 0 >>> 4 <<< 4 = 0 := by
    rw [hev]
    exact sepoll_word_clo _ (h.1.2.2.2 fd hfd)
  rw [hval]
  refine events_update_inv (release_spec_entry st fd) fd 0
    (by rw [hevlen]; exact hfd) (by omega) hcore ?_ ?_
  · intro fd2 h2 hne hs
    rw [hevlen] at h2
    rw [hev] at hs
    exact hoth fd2 h2 hne hs
  · intro hs
    exact absurd hs (by decide)

theorem specStep_inv (st : SpecState) (op : SpecOp)
    (h : specInvP st) : specInvP (specStep st op) := by
  cases op with
  | set fd dir =>
    simp only [specStep]
    split
    · rename_i hcond
      exact sepoll_fd_set_inv st fd dir hcond.1 hcond.2 h
    · exact h
  | clr fd dir =>
    simp only [specStep]
    split
    · rename_i hcond
      exact sepoll_fd_clr_inv st fd dir hcond.1 hcond.2 h
    · exact h
  | clo fd =>
    simp only [specStep]
    split
    · rename_i hcond
      exact sepoll_fd_clo_inv st fd hcond h
    · exact h

theorem specRun_inv (st : SpecState) (ops : List SpecOp)
    (h : specInvP st) : specInvP (specRun st ops) := by
  induction ops generalizing st with
  | nil => exact h
  | cons op ops ih => exact ih _ (specStep_inv st op h)

/-- C5, counterexample.  The claimed bijection fails between poll turns: from
the fresh one-fd engine state, `__fd_set(0, DIR_RD)` followed by
`__fd_clr(0, DIR_RD)` leaves fd 0 in `spec_list` (the clear switches
SPEC → IDLE but defers the list removal to the next spec walk), while its
event word no longer carries any in-spec-list bit — so an occupied slot
holds an fd without a spec bit, refuting the converse half of the claim. -/
theorem spec_list_bijection_counterexample :
    specBijectionClaim (specRun (specInit 1) [SpecOp.set 0 0, SpecOp.clr 0 0]) = false ∧
    (specRun (specInit 1) [SpecOp.set 0 0, SpecOp.clr 0 0]).slist = [0] ∧
    hasSL ((specRun (specInit 1) [SpecOp.set 0 0, SpecOp.clr 0 0]).events.getD 0 0) =
      false := by
  decide

/-- C5 (amended).  At every point reachable between poll turns (any sequence
of `__fd_set`/`__fd_clr`/`__fd_clo` calls from the fresh engine state), the
engine maintains the spec-list discipline `specInvP`: every occupied slot
back-references its fd, every non-zero back reference is pointed back at,
and — the forward half of the claimed bijection — every fd whose event word
has an in-spec-list bit appears in `spec_list` exactly once, at index
`spec.s1 - 1`.  The converse half of the original claim holds only up to
entries pending lazy removal (see the counterexample). -/
theorem spec_list_discipline (nfd : Nat) (ops : List SpecOp) :
    specInvP (specRun (specInit nfd) ops) ∧
    (∀ fd, fd < (specRun (specInit nfd) ops).events.length →
      hasSL ((specRun (specInit nfd) ops).events.getD fd 0) = true →
      (specRun (specInit nfd) ops).slist.count fd = 1 ∧
      (specRun (specInit nfd) ops).slist.getD
        ((specRun (specInit nfd) ops).backref.getD fd 0 - 1) 0 = fd) := by
  have hinv := specRun_inv (specInit nfd) ops (specInvP_init nfd)
  refine ⟨hinv, ?_⟩
  intro fd hfd hs
  obtain ⟨⟨hlen, hP2, hP3, hP5⟩, hP4⟩ := hinv
  have hbr := hP4 fd hfd hs
  obtain ⟨hble, hbg⟩ := hP3 fd hfd hbr
  refine ⟨?_, hbg⟩
  refine count_eq_one_of_unique_index _ fd
    ((specRun (specInit nfd) ops).backref.getD fd 0 - 1) (by omega) hbg ?_
  intro i hi hgi
  have hbi := (hP2 i hi).2
  rw [hgi] at hbi
  omega

/-- Witness for the amended C5: after a single `__fd_set(0, DIR_RD)` from
the fresh one-fd state, fd 0 (whose word now has the read spec bit) sits in
the spec list exactly once, at the slot its back reference designates. -/
theorem spec_list_discipline_witness :
    (specRun (specInit 1) [SpecOp.set 0 0]).slist.count 0 = 1 ∧
    (specRun (specInit 1) [SpecOp.set 0 0]).slist.getD
      ((specRun (specInit 1) [SpecOp.set 0 0]).backref.getD 0 0 - 1) 0 = 0 := by
  exact (spec_list_discipline 1 [SpecOp.set 0 0]).2 0 (by decide) (by decide)
